import Mathlib

/-!
Verification development for the heuristic Prisma-schema usage analyzer
(`ComprehensivePrismaAnalyzer` and the stricter `EnhancedPrismaUsageAnalyzer`).

File contents are modelled as lists of character codes (`Str := List Nat`).
The dynamically-built JavaScript regular expressions are embedded as an
explicit `Rx` syntax tree together with a fuel-indexed backtracking matcher
`mAt` that follows the JS semantics relevant here: left-first alternation,
greedy and non-greedy repetition with backtracking, `.` not matching line
terminators, `[\s\S]` matching anything, multiline `$`, and `\b` word
boundaries.  Case-insensitive (`i` flag) patterns compare characters through
`lc` (ASCII lower-casing, which is what `toLowerCase` does on the ASCII model
names produced by the `\w+` capture of the schema parser).
-/

namespace PrismaCheck

/-- File text as a list of ASCII character codes. -/
abbrev Str := List Nat

/-- ASCII lower-casing, the behaviour of `toLowerCase` on `\w` characters. -/
def lc (c : Nat) : Nat := if 65 ≤ c ∧ c ≤ 90 then c + 32 else c

/-- Lower-case a whole string. -/
def lowers (s : Str) : Str := s.map lc

/-- Convert a Lean string literal to character codes. -/
def na (s : String) : Str := s.toList.map Char.toNat

/-- JS `\s` (ASCII part: space, tab, LF, VT, FF, CR). -/
def isSpaceC (c : Nat) : Bool :=
  c == 32 || c == 9 || c == 10 || c == 11 || c == 12 || c == 13

/-- JS `\w`, i.e. `[A-Za-z0-9_]`. -/
def isWordC (c : Nat) : Bool :=
  decide (48 ≤ c ∧ c ≤ 57) || decide (65 ≤ c ∧ c ≤ 90) ||
  decide (97 ≤ c ∧ c ≤ 122) || c == 95

/-- Embedded regular-expression syntax: the constructs used by the dynamically
built analyzer patterns. `star true r` is the non-greedy `r*?`. -/
inductive Rx : Type where
  | eps : Rx
  | cls (p : Nat → Bool) : Rx
  | seq (a b : Rx) : Rx
  | alt (a b : Rx) : Rx
  | star (lz : Bool) (r : Rx) : Rx
  | bound : Rx
  | eol : Rx

/-- Is the character at position `i` a word character? (out of range: no). -/
def isWordAt (s : Str) (i : Nat) : Bool :=
  match s.get? i with
  | some c => isWordC c
  | none => false

/-- Is the character just before position `i` a word character? -/
def prevWordAt (s : Str) (i : Nat) : Bool :=
  match i with
  | 0 => false
  | Nat.succ j => isWordAt s j

/-- JS `\b` holds at `i`. -/
def boundOK (s : Str) (i : Nat) : Bool := prevWordAt s i != isWordAt s i

/-- JS multiline `$` holds at `i`: end of input or before a line terminator. -/
def eolOK (s : Str) (i : Nat) : Bool :=
  match s.get? i with
  | none => true
  | some c => c == 10 || c == 13

/-- One layer of the backtracking matcher, in continuation-passing style.
`deeper` re-enters the matcher (at one less fuel) for repetition unrolling;
an iteration of `star` that consumes nothing exits the loop, as in JS. -/
def mGo (s : Str) (deeper : Rx → Nat → (Nat → Option Nat) → Option Nat) :
    Rx → Nat → (Nat → Option Nat) → Option Nat
  | Rx.eps, i, k => k i
  | Rx.bound, i, k => if boundOK s i then k i else none
  | Rx.eol, i, k => if eolOK s i then k i else none
  | Rx.cls p, i, k =>
      match s.get? i with
      | some c => if p c then k (i + 1) else none
      | none => none
  | Rx.seq a b, i, k => mGo s deeper a i (fun j => mGo s deeper b j k)
  | Rx.alt a b, i, k => (mGo s deeper a i k).orElse (fun _ => mGo s deeper b i k)
  | Rx.star lz r, i, k =>
      let again : Nat → Option Nat :=
        fun j => if j = i then none else deeper (Rx.star lz r) j k
      if lz then (k i).orElse (fun _ => mGo s deeper r i again)
      else (mGo s deeper r i again).orElse (fun _ => k i)

/-- Fuel-indexed matcher: `mAt s fuel r i k` tries to match `r` in `s`
starting at position `i`, calling continuation `k` with the end position. -/
def mAt (s : Str) : Nat → Rx → Nat → (Nat → Option Nat) → Option Nat
  | 0, _, _, _ => none
  | Nat.succ f, r, i, k => mGo s (mAt s f) r i k

/-- The preferred match of `r` at position `i` (end position), if any.
Fuel `s.length + 1` is enough: every `star` iteration consumes a character. -/
def firstMatchAt (r : Rx) (s : Str) (i : Nat) : Option Nat :=
  mAt s (s.length + 1) r i some

/-- The scanning loop of `matchAll` with the `g` flag: count matches,
resuming after each match (bumping by one on an empty match). -/
def scanCount (r : Rx) (s : Str) : Nat → Nat → Nat
  | 0, _ => 0
  | Nat.succ f, i =>
      if s.length < i then 0
      else
        match firstMatchAt r s i with
        | some j =>
            if i < j then 1 + scanCount r s f j
            else if i = s.length then 1
            else 1 + scanCount r s f (i + 1)
        | none => if i = s.length then 0 else scanCount r s f (i + 1)

/-- Number of matches, as collecting `matchAll` results counts them. -/
def countMatches (r : Rx) (s : Str) : Nat := scanCount r s (s.length + 2) 0

/-- The character at position `i` (0 when out of range; only used in range). -/
def nth (s : Str) (i : Nat) : Nat := (s.get? i).getD 0

/-- The scanning loop of `String.replace` with a `g`-flagged regex:
each match is replaced by `rep`, unmatched characters are kept. -/
def scanRep (rep : Str) (r : Rx) (s : Str) : Nat → Nat → Str
  | 0, _ => []
  | Nat.succ f, i =>
      if s.length < i then []
      else
        match firstMatchAt r s i with
        | some j =>
            if i < j then rep ++ scanRep rep r s f j
            else if i = s.length then rep
            else rep ++ (nth s i :: scanRep rep r s f (i + 1))
        | none => if i = s.length then [] else nth s i :: scanRep rep r s f (i + 1)

/-- JS `text.replace(pattern, rep)` for a global pattern. -/
def replaceAllWith (rep : Str) (r : Rx) (s : Str) : Str :=
  scanRep rep r s (s.length + 2) 0

/-! ### Pattern-building combinators mirroring the regex source text -/

/-- A sequence of regex parts (`foldr` over `Rx.seq`). -/
def rq (l : List Rx) : Rx := l.foldr Rx.seq Rx.eps

/-- One literal character; case-insensitive when `ci` (the `i` flag). -/
def chRx (ci : Bool) (c : Nat) : Rx := Rx.cls (fun x => if ci then lc x == lc c else x == c)

/-- A literal word. -/
def strRx (ci : Bool) (w : Str) : Rx := rq (w.map (chRx ci))

/-- Alternation `(a|b|...)`, left-first as in JS. -/
def altsRx (l : List Rx) : Rx := l.foldr Rx.alt (Rx.cls (fun _ => false))

/-- Class `\s`. -/
def wS : Rx := Rx.cls isSpaceC

/-- Class `\w`. -/
def wW : Rx := Rx.cls isWordC

/-- The dot class (anything but a line terminator). -/
def dotC : Rx := Rx.cls (fun c => !(c == 10 || c == 13))

/-- Class `[\s\S]`. -/
def anyC : Rx := Rx.cls (fun _ => true)

/-- Greedy `r*`. -/
def gstar (r : Rx) : Rx := Rx.star false r

/-- Non-greedy `r*?`. -/
def lstar (r : Rx) : Rx := Rx.star true r

/-- Repetition `r+`. -/
def plusRx (r : Rx) : Rx := Rx.seq r (gstar r)

/-- A negated character class `[^...]`. -/
def nne (cs : Str) : Rx := Rx.cls (fun c => !(cs.contains c))

/-- The quote class: single quote, double quote, backtick. -/
def quoteC : Rx := Rx.cls (fun c => c == 39 || c == 34 || c == 96)

/-- The negated quote class. -/
def notQuote : Rx := nne [39, 34, 96]

/-- Case-insensitive substring test driving the no-occurrence hypotheses. -/
def prefixLc : Str → Str → Bool
  | [], _ => true
  | _ :: _, [] => false
  | c :: w', d :: s' => (lc c == lc d) && prefixLc w' s'

/-- Test `occursIn w s`: `w` occurs in `s` as a factor, up to ASCII case. -/
def occursIn (w : Str) : Str → Bool
  | [] => prefixLc w []
  | d :: s' => prefixLc w (d :: s') || occursIn w s'

/-! ### Relational semantics of the embedded regexes, and matcher soundness -/

/-- Relation `MSem s r i j`: regex `r` matches the span from `i` to `j` of `s`. -/
inductive MSem (s : Str) : Rx → Nat → Nat → Prop where
  | eps {i : Nat} : MSem s Rx.eps i i
  | cls {p : Nat → Bool} {i c : Nat} (h : s.get? i = some c) (hp : p c = true) :
      MSem s (Rx.cls p) i (i + 1)
  | seqI {a b : Rx} {i j l : Nat} (h1 : MSem s a i j) (h2 : MSem s b j l) :
      MSem s (Rx.seq a b) i l
  | altL {a b : Rx} {i j : Nat} (h : MSem s a i j) : MSem s (Rx.alt a b) i j
  | altR {a b : Rx} {i j : Nat} (h : MSem s b i j) : MSem s (Rx.alt a b) i j
  | starN {lz : Bool} {r : Rx} {i : Nat} : MSem s (Rx.star lz r) i i
  | starC {lz : Bool} {r : Rx} {i j l : Nat} (h1 : MSem s r i j)
      (h2 : MSem s (Rx.star lz r) j l) : MSem s (Rx.star lz r) i l
  | boundI {i : Nat} (h : boundOK s i = true) : MSem s Rx.bound i i
  | eolI {i : Nat} (h : eolOK s i = true) : MSem s Rx.eol i i

/-! ### The clean transform (text normalizer) of `getFileContent` -/

/-- Block comments, the non-greedy multi-line step. -/
def blockCommentRx : Rx := rq [strRx false (na "/*"), lstar anyC, strRx false (na "*/")]

/-- Line comments, from the double slash to end of line. -/
def lineCommentRx : Rx := rq [strRx false (na "//"), gstar dotC, Rx.eol]

/-- Markup (HTML) comments, non-greedy. -/
def htmlCommentRx : Rx := rq [strRx false (na "<!--"), lstar anyC, strRx false (na "-->")]

/-- Shell-style comments, hash to end of line. -/
def shellCommentRx : Rx := rq [chRx false 35, gstar dotC, Rx.eol]

/-- Single-quoted string literals. -/
def singleQuoteRx : Rx := rq [chRx false 39, gstar (nne [39]), chRx false 39]

/-- Double-quoted string literals. -/
def doubleQuoteRx : Rx := rq [chRx false 34, gstar (nne [34]), chRx false 34]

/-- Back-tick template literals. -/
def backtickRx : Rx := rq [chRx false 96, gstar (nne [96]), chRx false 96]

/-- The single neutral space every match is replaced with. -/
def sp : Str := [32]

/-- The clean transform of the comprehensive analyzer: seven suppression steps in
sequence, each match replaced by a single space. -/
def cleanContent (s : Str) : Str :=
  replaceAllWith sp backtickRx
    (replaceAllWith sp doubleQuoteRx
      (replaceAllWith sp singleQuoteRx
        (replaceAllWith sp shellCommentRx
          (replaceAllWith sp htmlCommentRx
            (replaceAllWith sp lineCommentRx
              (replaceAllWith sp blockCommentRx s))))))

/-- The comment removal of the strict (enhanced) analyzer: four steps, each match
replaced by the empty string. -/
def cleanStrict (s : Str) : Str :=
  replaceAllWith [] shellCommentRx
    (replaceAllWith [] htmlCommentRx
      (replaceAllWith [] lineCommentRx
        (replaceAllWith [] blockCommentRx s)))

/-! ### Detector-tier pattern lists of `ComprehensivePrismaAnalyzer.analyzeModelUsage` -/

/-- Alternation over literal words. -/
def altWords (ci : Bool) (ws : List Str) : Rx := altsRx (ws.map (strRx ci))

def crudVerbs : List Str :=
  [na "create", na "createMany", na "findFirst", na "findUnique", na "findMany",
   na "update", na "updateMany", na "upsert", na "delete", na "deleteMany",
   na "count", na "aggregate", na "groupBy"]

def txVerbs : List Str :=
  [na "create", na "findFirst", na "findUnique", na "findMany", na "update",
   na "updateMany", na "upsert", na "delete", na "deleteMany"]

def httpVerbs : List Str := [na "get", na "post", na "put", na "delete", na "patch"]

def reqProps : List Str := [na "params", na "body", na "query"]

def declWords : List Str := [na "const", na "let", na "var"]

def funcDeclWords : List Str := [na "function", na "const", na "let"]

def methodVerbs : List Str :=
  [na "get", na "create", na "update", na "delete", na "fetch", na "save", na "load"]

def actionVerbs : List Str := [na "set", na "update", na "delete", na "fetch", na "create"]

def actionVerbsGet : List Str :=
  [na "get", na "create", na "update", na "delete", na "fetch"]

/-- Tier 1, server-only: direct Prisma operations, transactions, raw queries,
include clauses.  Weight 40. -/
def dbPatterns (n : Str) : List Rx :=
  [rq [strRx true (na "prisma."), strRx true (lowers n), strRx true (na "."),
       altWords true crudVerbs, gstar wS, strRx true (na "(")],
   rq [strRx false (na "prisma."), strRx false n, strRx false (na "."),
       altWords false crudVerbs, gstar wS, strRx false (na "(")],
   rq [strRx true (na "tx."), strRx true (lowers n), strRx true (na "."),
       altWords true txVerbs],
   rq [strRx false (na "tx."), strRx false n, strRx false (na "."),
       altWords false txVerbs],
   rq [strRx true (na "$queryRaw"), gstar dotC, strRx true n],
   rq [strRx true (na "$executeRaw"), gstar dotC, strRx true n],
   rq [strRx true (na "include:"), gstar wS, chRx true 123, gstar (nne [125]),
       strRx true (lowers n), gstar (nne [125]), chRx true 125],
   rq [strRx false (na "include:"), gstar wS, chRx false 123, gstar (nne [125]),
       strRx false n, gstar (nne [125]), chRx false 125]]

/-- Tier 2: routes, request fields, API path strings, HTTP-call sites.
Weight 35. -/
def apiPatterns (n : Str) : List Rx :=
  [rq [chRx true 46, altWords true httpVerbs, gstar wS, chRx true 40, gstar (nne [41]),
       quoteC, gstar notQuote, strRx true (lowers n), gstar notQuote, quoteC],
   rq [chRx false 46, altWords false httpVerbs, gstar wS, chRx false 40, gstar (nne [41]),
       quoteC, gstar notQuote, strRx false n, gstar notQuote, quoteC],
   rq [strRx true (na "req."), altWords true reqProps, strRx true (na "."),
       gstar wW, strRx true (lowers n)],
   rq [strRx false (na "req."), altWords false reqProps, strRx false (na "."),
       gstar wW, strRx false n],
   rq [quoteC, strRx true (na "/api/"), gstar notQuote, strRx true (lowers n),
       gstar notQuote, quoteC],
   rq [quoteC, chRx true 47, gstar notQuote, strRx true (lowers n),
       gstar notQuote, quoteC],
   rq [altsRx [strRx true (na "axios"), strRx true (na "fetch")], gstar wS, chRx true 40,
       gstar (nne [41]), quoteC, gstar notQuote, strRx true (lowers n),
       gstar notQuote, quoteC],
   rq [altWords true httpVerbs, gstar wS, chRx true 40, gstar (nne [41]),
       quoteC, gstar notQuote, strRx true (lowers n), gstar notQuote, quoteC]]

/-- Tier 3: interfaces, type aliases, annotations, generics, typed variables.
Weight 25. -/
def typePatterns (n : Str) : List Rx :=
  [rq [strRx true (na "interface"), plusRx wS, gstar wW, strRx true n, gstar wW,
       gstar wS, chRx true 123],
   rq [strRx true (na "type"), plusRx wS, gstar wW, strRx true n, gstar wW,
       gstar wS, chRx true 61],
   rq [chRx false 58, gstar wS, strRx false n, gstar wS,
       gstar (Rx.cls (fun c => c == 91 || c == 93)), gstar wS,
       Rx.cls (fun c => c == 61 || c == 44 || c == 41 || c == 125)],
   rq [chRx false 58, gstar wS, strRx false n, chRx false 91, chRx false 93],
   rq [chRx false 60, gstar (nne [62]), strRx false n, gstar (nne [62]), chRx false 62],
   rq [altWords false declWords, plusRx wS, plusRx wW, gstar wS, chRx false 58,
       gstar wS, strRx false n]]

/-- Tier 4: service/repository calls, declarations named after the model,
CRUD-verb method names, Redux slices.  Weight 20. -/
def bizPatterns (n : Str) : List Rx :=
  [rq [gstar wW, strRx true (na "Service."), gstar wW, strRx true (lowers n)],
   rq [gstar wW, strRx true (na "Repository."), gstar wW, strRx true (lowers n)],
   rq [gstar wW, strRx true (na "API."), gstar wW, strRx true (lowers n)],
   rq [altWords true funcDeclWords, plusRx wS, gstar wW, strRx true (lowers n), gstar wW],
   rq [altWords false funcDeclWords, plusRx wS, gstar wW, strRx false n, gstar wW],
   rq [chRx true 46, altWords true methodVerbs, strRx true n],
   rq [chRx true 46, altWords true methodVerbs, strRx true (lowers n)],
   rq [strRx true (lowers n), strRx true (na "Slice")],
   rq [strRx false n, strRx false (na "Slice")],
   rq [altWords false actionVerbs, strRx false n]]

/-- Tier 5, client-only: hooks, props/state/data naming, store access,
selectors, forms, navigation.  Weight 20. -/
def clientPatterns (n : Str) : List Rx :=
  [rq [strRx true (na "use"), strRx true n],
   rq [strRx true (na "use"), gstar wW, strRx true n, gstar wW],
   rq [strRx true n, strRx true (na "Props")],
   rq [strRx true n, strRx true (na "State")],
   rq [strRx true n, strRx true (na "Data")],
   rq [strRx true (na "state."), strRx true (lowers n)],
   rq [strRx false (na "state."), strRx false n],
   rq [strRx true (na "useSelector"), gstar dotC, strRx true (lowers n)],
   rq [strRx true n, strRx true (na "Form")],
   rq [strRx true (na "validate"), strRx true n],
   rq [strRx true (na "navigate"), gstar dotC, strRx true (lowers n)],
   rq [strRx true (na "router"), gstar dotC, strRx true (lowers n)]]

/-- Tier 6, applied to *raw* text: relation/references keywords, SQL DDL,
seed naming.  Weight 15. -/
def configPatterns (n : Str) : List Rx :=
  [rq [strRx true (na "@relation"), gstar dotC, strRx true n],
   rq [strRx true (na "references"), gstar dotC, strRx true n],
   rq [strRx true (na "CREATE TABLE"), gstar dotC, strRx true n],
   rq [strRx true (na "ALTER TABLE"), gstar dotC, strRx true n],
   rq [strRx true (na "DROP TABLE"), gstar dotC, strRx true n],
   rq [strRx true (lowers n), gstar dotC, strRx true (na "seed")],
   rq [strRx true (na "seed"), gstar dotC, strRx true (lowers n)]]

/-- Tier 7: imports, quoted literals, bare word-boundary occurrences.
Weight 2. -/
def weakPatterns (n : Str) : List Rx :=
  [rq [strRx true (na "import"), gstar dotC, strRx true n],
   rq [strRx true (na "from"), gstar dotC, strRx true n],
   rq [quoteC, strRx true (lowers n), quoteC],
   rq [quoteC, strRx false n, quoteC],
   rq [Rx.bound, strRx false n, Rx.bound]]

/-! ### Per-file analysis (`analyzeModelUsage` of the comprehensive analyzer) -/

/-- One detail entry pushed per matching pattern (the literal example
substrings kept by the source are omitted; claims never mention them). -/
structure UsageDetail where
  dtype : String
  mcount : Nat
deriving DecidableEq

structure FileAnalysis where
  file : Str
  isClientFile : Bool
  usageTypes : List String
  usageCount : Nat
  confidence : Nat
  details : List UsageDetail
deriving DecidableEq

/-- JS Set add: insertion-ordered, deduplicating. -/
def addSet (l : List String) (x : String) : List String :=
  if l.contains x then l else l ++ [x]

/-- The per-tier loop over patterns: for each pattern with at least one
match, add the tag, the match count, and the tier weight. -/
def runTier (tag : String) (weight : Nat) (text : Str) (pats : List Rx)
    (ua : FileAnalysis) : FileAnalysis :=
  pats.foldl (fun ua p =>
    let m := countMatches p text
    if 0 < m then
      { ua with usageTypes := addSet ua.usageTypes tag,
                usageCount := ua.usageCount + m,
                confidence := ua.confidence + weight,
                details := ua.details ++ [⟨tag, m⟩] }
    else ua) ua

def uaInit (p : Str) (isClient : Bool) : FileAnalysis := ⟨p, isClient, [], 0, 0, []⟩

/-- The body of `analyzeModelUsage` before the final usage-count check:
tiers run in source order, tier 1 server-only, tier 5 client-only, tier 6 on
raw text, all others on clean text. -/
def uaFull (n p : Str) (isClient : Bool) (raw cleanc : Str) : FileAnalysis :=
  let ua0 := uaInit p isClient
  let ua1 := if isClient then ua0 else runTier "DATABASE_OPERATION" 40 cleanc (dbPatterns n) ua0
  let ua2 := runTier "API_ENDPOINT" 35 cleanc (apiPatterns n) ua1
  let ua3 := runTier "TYPE_DEFINITION" 25 cleanc (typePatterns n) ua2
  let ua4 := runTier "BUSINESS_LOGIC" 20 cleanc (bizPatterns n) ua3
  let ua5 := if isClient then runTier "CLIENT_OPERATION" 20 cleanc (clientPatterns n) ua4 else ua4
  let ua6 := runTier "SCHEMA_REFERENCE" 15 raw (configPatterns n) ua5
  runTier "WEAK_INDICATOR" 2 cleanc (weakPatterns n) ua6

/-- Function `analyzeModelUsage` returns the analysis only when something matched. -/
def analyzeModelContent (n p : Str) (isClient : Bool) (raw cleanc : Str) :
    Option FileAnalysis :=
  let ua := uaFull n p isClient raw cleanc
  if 0 < ua.usageCount then some ua else none

/-! ### File cache and whole-run pipeline (`analyzeAllModels`) -/

/-- The filesystem as seen through `fs.readFileSync`: `none` = read throws. -/
abbrev FS := Str → Option Str

/-- Cache `this.fileCache`: path to cached raw and clean pair. -/
abbrev Cache := List (Str × (Str × Str))

def lookupC (p : Str) : Cache → Option (Str × Str)
  | [] => none
  | (q, v) :: c => if q = p then some v else lookupC p c

/-- Reader `getFileContent`: cached lookup; on a miss read and clean, caching the
pair; a failing read returns empty raw and clean text and caches nothing.
The third component counts filesystem reads performed by this call. -/
def getFileContent (fs : FS) (p : Str) (cache : Cache) : (Str × Str) × Cache × Nat :=
  match lookupC p cache with
  | some v => (v, cache, 0)
  | none =>
      match fs p with
      | some content =>
          ((content, cleanContent content), (p, (content, cleanContent content)) :: cache, 1)
      | none => ((([] : Str), ([] : Str)), cache, 1)

structure SrcFile where
  path : Str
  isClient : Bool
deriving DecidableEq

/-- Per (model, file) analysis through the cache. -/
def analyzeModelUsage (fs : FS) (n : Str) (f : SrcFile) (cache : Cache) :
    Option FileAnalysis × Cache :=
  (analyzeModelContent n f.path f.isClient (getFileContent fs f.path cache).1.1
    (getFileContent fs f.path cache).1.2,
   (getFileContent fs f.path cache).2.1)

structure ModelUsage where
  totalFiles : Nat
  serverFiles : Nat
  clientFiles : Nat
  totalConfidence : Nat
  usageTypes : List String
  fileAnalyses : List FileAnalysis
  isReallyUsed : Bool
  riskLevel : String
deriving DecidableEq

/-- The initial per-model record, risk level placeholder included. -/
def muInit : ModelUsage := ⟨0, 0, 0, 0, [], [], false, "UNKNOWN"⟩

def addAll (l : List String) (xs : List String) : List String := xs.foldl addSet l

/-- Folding one per-file result into the per-model aggregate. -/
def foldFile (mu : ModelUsage) (a : Option FileAnalysis) : ModelUsage :=
  match a with
  | none => mu
  | some x =>
      { mu with totalFiles := mu.totalFiles + 1,
                totalConfidence := mu.totalConfidence + x.confidence,
                serverFiles := if x.isClientFile then mu.serverFiles else mu.serverFiles + 1,
                clientFiles := if x.isClientFile then mu.clientFiles + 1 else mu.clientFiles,
                usageTypes := addAll mu.usageTypes x.usageTypes,
                fileAnalyses := mu.fileAnalyses ++ [x] }

/-- The risk-assessment branch chain of `analyzeAllModels`. -/
def classify (mu : ModelUsage) : ModelUsage :=
  let hasStrongUsage := mu.usageTypes.contains "DATABASE_OPERATION" ||
    mu.usageTypes.contains "API_ENDPOINT"
  let hasMediumUsage := mu.usageTypes.contains "TYPE_DEFINITION" ||
    mu.usageTypes.contains "BUSINESS_LOGIC" || mu.usageTypes.contains "CLIENT_OPERATION"
  let hasWeakUsage := mu.usageTypes.contains "WEAK_INDICATOR" ||
    mu.usageTypes.contains "SCHEMA_REFERENCE"
  if hasStrongUsage then { mu with isReallyUsed := true, riskLevel := "SAFE" }
  else if hasMediumUsage && decide (30 ≤ mu.totalConfidence) then
    { mu with isReallyUsed := true, riskLevel := "PROBABLY_SAFE" }
  else if hasMediumUsage || (hasWeakUsage && decide (20 ≤ mu.totalConfidence)) then
    { mu with isReallyUsed := false, riskLevel := "SUSPICIOUS" }
  else if hasWeakUsage then { mu with isReallyUsed := false, riskLevel := "LIKELY_UNUSED" }
  else { mu with isReallyUsed := false, riskLevel := "DEFINITELY_UNUSED" }

structure Field2 where
  fname : Str
  ftype : Str
deriving DecidableEq

/-- A declared relationship: `{field, model, isArray}`. -/
structure Rel where
  field : Str
  model : Str
  isArray : Bool
deriving DecidableEq

/-- A parsed schema model (input from the external schema parser). -/
structure Model where
  name : Str
  fields : List Field2
  relationships : List Rel
deriving DecidableEq

/-- One iteration of the per-model file loop. -/
def stepFn (fs : FS) (n : Str) (acc : ModelUsage × Cache) (f : SrcFile) :
    ModelUsage × Cache :=
  (foldFile acc.1 (analyzeModelUsage fs n f acc.2).1, (analyzeModelUsage fs n f acc.2).2)

/-- One model analyzed over all files, threading the cache. -/
def analyzeOneModel (fs : FS) (files : List SrcFile) (n : Str) (cache : Cache) :
    ModelUsage × Cache :=
  (classify (files.foldl (stepFn fs n) (muInit, cache)).1,
   (files.foldl (stepFn fs n) (muInit, cache)).2)

/-- One iteration of the outer model loop. -/
def stepAll (fs : FS) (files : List SrcFile)
    (acc : List (Str × ModelUsage) × Cache) (m : Model) :
    List (Str × ModelUsage) × Cache :=
  (acc.1 ++ [(m.name, (analyzeOneModel fs files m.name acc.2).1)],
   (analyzeOneModel fs files m.name acc.2).2)

/-- Pipeline `analyzeAllModels`, generalized over the starting cache. -/
def analyzeAllAux (fs : FS) (files : List SrcFile) (models : List Model)
    (cache : Cache) : List (Str × ModelUsage) × Cache :=
  models.foldl (stepAll fs files) ([], cache)

def analyzeAllModelsWith (fs : FS) (files : List SrcFile) (models : List Model)
    (cache : Cache) : List (Str × ModelUsage) :=
  (analyzeAllAux fs files models cache).1

/-- The whole run: every model analyzed against every file, fresh cache. -/
def analyzeAllModels (fs : FS) (files : List SrcFile) (models : List Model) :
    List (Str × ModelUsage) :=
  analyzeAllModelsWith fs files models []

/-- The cache left behind by a whole run. -/
def finalCache (fs : FS) (files : List SrcFile) (models : List Model) : Cache :=
  (analyzeAllAux fs files models []).2

/-! ### Cache-free description of the pipeline (used to relate runs) -/

/-- The `(raw, clean)` pair `getFileContent` produces for a path, cache aside. -/
def computeContent (fs : FS) (p : Str) : Str × Str :=
  match fs p with
  | some content => (content, cleanContent content)
  | none => ([], [])

/-- A cache is well-formed when every entry holds exactly the pair that
reading and cleaning the path would produce. -/
def CacheWF (fs : FS) (c : Cache) : Prop :=
  ∀ p v, lookupC p c = some v → v = computeContent fs p

/-- Per (model, file) analysis without the cache. -/
def pureFA (fs : FS) (n : Str) (f : SrcFile) : Option FileAnalysis :=
  analyzeModelContent n f.path f.isClient (computeContent fs f.path).1
    (computeContent fs f.path).2

/-- Per-model aggregate without the cache. -/
def pureModelUsage (fs : FS) (files : List SrcFile) (n : Str) : ModelUsage :=
  classify ((files.map (pureFA fs n)).foldl foldFile muInit)

/-- The whole classification output without the cache. -/
def pureAll (fs : FS) (files : List SrcFile) (models : List Model) :
    List (Str × ModelUsage) :=
  models.map (fun m => (m.name, pureModelUsage fs files m.name))

/-- How many patterns of a tier matched at least once. -/
def matchedCount (pats : List Rx) (txt : Str) : Nat :=
  (pats.filter (fun p => decide (0 < countMatches p txt))).length

/-! ### Spec-side classification rule -/

/-- Modelled from the spec (the classification decision rule of
§4.4, evaluated in fixed priority order over the aggregated usage-type set
and total confidence); to be compared with the source-derived `classify`. -/
def specRiskLevel (types : List String) (conf : Nat) : String :=
  if types.contains "DATABASE_OPERATION" || types.contains "API_ENDPOINT" then
    "SAFE"
  else if (types.contains "TYPE_DEFINITION" || types.contains "BUSINESS_LOGIC" ||
      types.contains "CLIENT_OPERATION") && decide (30 ≤ conf) then
    "PROBABLY_SAFE"
  else if (types.contains "TYPE_DEFINITION" || types.contains "BUSINESS_LOGIC" ||
      types.contains "CLIENT_OPERATION") ||
      ((types.contains "WEAK_INDICATOR" || types.contains "SCHEMA_REFERENCE") &&
        decide (20 ≤ conf)) then
    "SUSPICIOUS"
  else if types.contains "WEAK_INDICATOR" || types.contains "SCHEMA_REFERENCE" then
    "LIKELY_UNUSED"
  else "DEFINITELY_UNUSED"

/-- The five final risk tiers. -/
def fiveRiskLevels : List String :=
  ["SAFE", "PROBABLY_SAFE", "SUSPICIOUS", "LIKELY_UNUSED", "DEFINITELY_UNUSED"]

/-! ### Relationship auditor (`analyzeRelationships`) -/

/-- One audit entry: an at-risk model, the models referencing it through a
declared relationship, and the danger flag. -/
structure RelReport where
  target : Str
  referencedBy : List Str
  danger : Bool
deriving DecidableEq

/-- Bucket `unusedModels`: keys of the usage map classified DEFINITELY_UNUSED. -/
def unusedBucket (usage : List (Str × ModelUsage)) : List Str :=
  (usage.filter (fun e => e.2.riskLevel == "DEFINITELY_UNUSED")).map Prod.fst

/-- Bucket `riskyModels`: keys classified SUSPICIOUS or LIKELY_UNUSED. -/
def riskyBucket (usage : List (Str × ModelUsage)) : List Str :=
  (usage.filter (fun e =>
    e.2.riskLevel == "SUSPICIOUS" || e.2.riskLevel == "LIKELY_UNUSED")).map Prod.fst

/-- List `relatedModels`: the other declared models having a relationship whose
target model equals `nm`. -/
def relatedModelsOf (models : List Model) (nm : Str) : List Str :=
  (models.filter (fun o =>
    decide (o.name ≠ nm) &&
    o.relationships.any (fun rel => rel.model == nm))).map Model.name

/-- One audit entry per model: produced only for at-risk models; the danger
flag holds when `safeRelations` (referencing models in neither bucket) is
nonempty. -/
def auditOne (models : List Model) (usage : List (Str × ModelUsage))
    (m : Model) : Option RelReport :=
  if (unusedBucket usage).contains m.name || (riskyBucket usage).contains m.name then
    some ⟨m.name, relatedModelsOf models m.name,
      !((relatedModelsOf models m.name).filter (fun rel =>
        !((unusedBucket usage).contains rel) &&
        !((riskyBucket usage).contains rel))).isEmpty⟩
  else none

/-- Auditor `analyzeRelationships`: for every model in the unused or risky buckets,
collect the other models with a declared relationship targeting it; the
danger condition holds when some referencing model is in neither bucket. -/
def analyzeRelationships (models : List Model) (usage : List (Str × ModelUsage)) :
    List RelReport :=
  models.filterMap (auditOne models usage)

/-- The risk level the usage map assigns to a name (with JS `Map.get`
returning the first matching entry; "UNKNOWN" when absent). -/
def riskOf (usage : List (Str × ModelUsage)) (x : Str) : String :=
  match usage.find? (fun e => e.1 == x) with
  | some e => e.2.riskLevel
  | none => "UNKNOWN"

/-! ### The strict analyzer variant (`EnhancedPrismaUsageAnalyzer`) -/

/-- Strict variant, tier 1 (server only): Prisma client calls, raw queries,
transaction-style member calls. -/
def sdbPatterns (n : Str) : List Rx :=
  [rq [strRx true (na "prisma."), strRx true (lowers n), strRx true (na "."),
       altWords true crudVerbs, gstar wS, strRx true (na "(")],
   rq [strRx false (na "prisma."), strRx false n, strRx false (na "."),
       altWords false crudVerbs, gstar wS, strRx false (na "(")],
   rq [strRx true (na "$queryRaw"), gstar dotC, strRx true n],
   rq [strRx true (na "$executeRaw"), gstar dotC, strRx true n],
   rq [chRx true 46, altsRx [strRx true (lowers n), strRx true n], strRx true (na "."),
       altWords true txVerbs]]

/-- Strict variant, tier 2: routes, request fields, HTTP-call sites, API
path strings, GraphQL resolvers. -/
def sapiPatterns (n : Str) : List Rx :=
  [rq [chRx true 46, altWords true httpVerbs, gstar wS, chRx true 40, gstar wS,
       quoteC, gstar notQuote, strRx true (lowers n), gstar notQuote, quoteC],
   rq [chRx false 46, altWords false httpVerbs, gstar wS, chRx false 40, gstar wS,
       quoteC, gstar notQuote, strRx false n, gstar notQuote, quoteC],
   rq [strRx true (na "req.params."), gstar wW, strRx true (lowers n)],
   rq [strRx true (na "req.body."), gstar wW, strRx true (lowers n)],
   rq [altsRx [strRx true (na "axios"), strRx true (na "fetch")], gstar wS, chRx true 40,
       gstar (nne [41]), quoteC, gstar notQuote, strRx true (lowers n),
       gstar notQuote, quoteC],
   rq [altWords true httpVerbs, gstar wS, chRx true 40, gstar (nne [41]),
       quoteC, gstar notQuote, strRx true (lowers n), gstar notQuote, quoteC],
   rq [quoteC, strRx true (na "/api/"), gstar notQuote, strRx true (lowers n),
       gstar notQuote, quoteC],
   rq [quoteC, chRx true 47, gstar notQuote, strRx true (lowers n),
       gstar notQuote, quoteC],
   rq [strRx true n, gstar wS, chRx true 58, gstar wS, chRx true 123,
       gstar (nne [125]), strRx true (na "resolver")],
   rq [strRx true (na "Query."), strRx true (lowers n)],
   rq [strRx true (na "Mutation."), strRx true (lowers n)]]

/-- Strict variant, tier 3 (client only): slices, actions, state access,
selectors, props naming, service methods, forms, hooks, transformations. -/
def sclientPatterns (n : Str) : List Rx :=
  [rq [strRx true (lowers n), strRx true (na "Slice")],
   rq [strRx false n, strRx false (na "Slice")],
   rq [strRx false (na "set"), strRx false n],
   rq [strRx false (na "update"), strRx false n],
   rq [strRx false (na "delete"), strRx false n],
   rq [strRx false (na "fetch"), strRx false n],
   rq [strRx false (na "create"), strRx false n],
   rq [strRx true (na "state."), strRx true (lowers n)],
   rq [strRx false (na "state."), strRx false n],
   rq [strRx true (na "useSelector"), gstar dotC, strRx true (lowers n)],
   rq [strRx false (na "useSelector"), gstar dotC, strRx false n],
   rq [strRx true n, strRx true (na "Props")],
   rq [strRx true n, strRx true (na "State")],
   rq [strRx true n, strRx true (na "Data")],
   rq [altWords true actionVerbsGet, strRx true n],
   rq [strRx true (lowers n), strRx true (na "Service")],
   rq [strRx false n, strRx false (na "Service")],
   rq [strRx true n, strRx true (na "Form")],
   rq [strRx true (na "validate"), strRx true n],
   rq [strRx true (na "use"), strRx true n],
   rq [strRx true (na "transform"), strRx true n],
   rq [strRx true (na "serialize"), strRx true n],
   rq [strRx true (na "deserialize"), strRx true n]]

/-- Strict variant, tier 4: type annotations, typed declarations,
service/repository calls, validate/transform/serialize naming. -/
def sbizPatterns (n : Str) : List Rx :=
  [rq [chRx false 58, gstar wS, strRx false n, gstar wS,
       gstar (Rx.cls (fun c => c == 91 || c == 93)), gstar wS,
       Rx.cls (fun c => c == 61 || c == 44 || c == 41 || c == 125)],
   rq [chRx false 58, gstar wS, strRx false n, gstar wS, chRx false 91,
       gstar wS, chRx false 93],
   rq [altWords false declWords, plusRx wS, plusRx wW, gstar wS, chRx false 58,
       gstar wS, strRx false n],
   rq [gstar wW, strRx true (na "Service."), gstar wW, strRx true (lowers n)],
   rq [gstar wW, strRx true (na "Repository."), gstar wW, strRx true (lowers n)],
   rq [strRx true (na "validate"), strRx true n],
   rq [strRx true (na "transform"), strRx true n],
   rq [strRx true (na "serialize"), strRx true n]]

/-- Strict variant, tier 5: imports, quoted literals, bare word boundaries;
never marks real usage. -/
def sweakPatterns (n : Str) : List Rx :=
  [rq [strRx true (na "import"), gstar dotC, strRx true n],
   rq [strRx true (na "from"), gstar dotC, strRx true n],
   rq [quoteC, strRx true (lowers n), quoteC],
   rq [quoteC, strRx false n, quoteC],
   rq [Rx.bound, strRx false n, Rx.bound]]

/-- One usage entry of the strict variant. -/
structure UsageS where
  utype : String
  count : Nat
deriving DecidableEq

/-- The per-file record of the strict variant. -/
structure UsageDetailS where
  file : Str
  isClientFile : Bool
  usages : List UsageS
  isRealUsage : Bool
deriving DecidableEq

/-- One section of `analyzeModelUsageInFile`: record a usage entry per
matching pattern; `gate = some t` marks real usage when a pattern has at
least `t` matches, `gate = none` never does (weak indicators). -/
def gateOK (gate : Option Nat) (m : Nat) : Bool :=
  match gate with
  | some t => decide (t ≤ m)
  | none => false

def runTierS (tag : String) (gate : Option Nat) (text : Str) (pats : List Rx)
    (u : UsageDetailS) : UsageDetailS :=
  pats.foldl (fun u p =>
    let m := countMatches p text
    if 0 < m then
      { u with usages := u.usages ++ [⟨tag, m⟩],
               isRealUsage := u.isRealUsage || gateOK gate m }
    else u) u

/-- The body of the strict `analyzeModelUsageInFile` on successfully read
content: comments removed (deleting, not padding), then the five sections
in source order.  `BUSINESS_LOGIC` marks real usage only at two or more
matches of a pattern. -/
def strictUA (n p : Str) (isClient : Bool) (raw : Str) : UsageDetailS :=
  let cleanc := cleanStrict raw
  let u0 : UsageDetailS := ⟨p, isClient, [], false⟩
  let u1 := if isClient then u0 else
    runTierS "DATABASE_OPERATION" (some 1) cleanc (sdbPatterns n) u0
  let u2 := runTierS "API_ENDPOINT" (some 1) cleanc (sapiPatterns n) u1
  let u3 := if isClient then
    runTierS "CLIENT_OPERATION" (some 1) cleanc (sclientPatterns n) u2 else u2
  let u4 := runTierS "BUSINESS_LOGIC" (some 2) cleanc (sbizPatterns n) u3
  runTierS "WEAK_INDICATOR" none cleanc (sweakPatterns n) u4

/-- The strict per-file analysis: a failing read is caught and yields
`none`; otherwise the record is returned when any usage was found. -/
def strictAnalyze (n p : Str) (isClient : Bool) (readRes : Option Str) :
    Option UsageDetailS :=
  match readRes with
  | none => none
  | some raw =>
      let u := strictUA n p isClient raw
      if u.usages.isEmpty then none else some u

/-! ### Replacement decomposition (for the clean-transform claim) -/

/-- Relation `Repl r s i out`: `out` is a suffix-output of scanning `s` from
position `i`, where every replaced span is a semantic match of `r` and is
replaced by exactly one space (code 32) — never deleted — and every other
character is kept. -/
inductive Repl (r : Rx) (s : Str) : Nat → Str → Prop where
  | done : Repl r s s.length []
  | past {i : Nat} (h : s.length < i) : Repl r s i []
  | keep {i : Nat} {out : Str} (hn : firstMatchAt r s i = none) (hlt : i < s.length)
      (hr : Repl r s (i + 1) out) : Repl r s i (nth s i :: out)
  | rep {i j : Nat} {out : Str} (hm : MSem s r i j) (hij : i < j)
      (hr : Repl r s j out) : Repl r s i (32 :: out)
  | repEmptyEnd {i : Nat} (hm : MSem s r i i) (hend : i = s.length) :
      Repl r s i [32]
  | repEmptyMid {i : Nat} {out : Str} (hm : MSem s r i i) (hlt : i < s.length)
      (hr : Repl r s (i + 1) out) : Repl r s i (32 :: nth s i :: out)

/-! ### Concrete inputs used by witnesses and counterexamples -/

/-- A one-file corpus whose only content is a line comment that the raw-text
schema tier still matches. -/
def fsSeed : FS := fun p => if p = na "f" then some (na "// seed Widget") else none

/-- A one-file corpus whose only content is the example line comment of the spec. -/
def fsUses : FS :=
  fun p => if p = na "f" then some (na "// uses Widget for legacy support") else none

/-- The single server file of the one-file corpora. -/
def filesOne : List SrcFile := [⟨na "f", false⟩]

/-- The Widget model, no fields, no relationships. -/
def modelsWidget : List Model := [⟨na "Widget", [], []⟩]

/-- A filesystem with no readable files. -/
def fsEmpty : FS := fun _ => none

/-- The Widget corpus plus a second, unreadable file. -/
def filesTwo : List SrcFile := [⟨na "f", false⟩, ⟨na "g", false⟩]

/-- A single-model schema used by small witnesses. -/
def modelsUser : List Model := [⟨na "User", [], []⟩]

/-- Is a risk level one of the three at-risk tiers of the auditor? -/
def atRisk (lvl : String) : Bool :=
  lvl == "SUSPICIOUS" || lvl == "LIKELY_UNUSED" || lvl == "DEFINITELY_UNUSED"

/-- Did any pattern of the tier match at least once? -/
def tierFiredS (pats : List Rx) (txt : Str) : Bool :=
  pats.any (fun p => decide (0 < countMatches p txt))

/-- Did any pattern of the tier match at least twice? -/
def tierGate2 (pats : List Rx) (txt : Str) : Bool :=
  pats.any (fun p => decide (2 ≤ countMatches p txt))

/-- The Order/OrderItem schema of the relationship-audit example in the spec. -/
def modelsOrder : List Model :=
  [⟨na "Order", [], []⟩,
   ⟨na "OrderItem", [], [⟨na "order", na "Order", false⟩]⟩]

/-- A usage map marking Order unused and OrderItem safe. -/
def usageOrder : List (Str × ModelUsage) :=
  [(na "Order", { muInit with riskLevel := "DEFINITELY_UNUSED" }),
   (na "OrderItem", { muInit with riskLevel := "SAFE" })]

/-! ## Theorems: matcher soundness and occurrence of embedded words -/

theorem orElse_eq_some {x : Option Nat} {f : Unit → Option Nat} {res : Nat}
    (h : x.orElse f = some res) : x = some res ∨ (f () = some res) := by
  cases x with
  | none => exact Or.inr h
  | some v => exact Or.inl h

theorem mGo_sound (s : Str) (deeper : Rx → Nat → (Nat → Option Nat) → Option Nat)
    (hd : ∀ r i k res, deeper r i k = some res → ∃ j, MSem s r i j ∧ k j = some res) :
    ∀ r i k res, mGo s deeper r i k = some res → ∃ j, MSem s r i j ∧ k j = some res := by
  intro r
  induction r with
  | eps => intro i k res h; exact ⟨i, MSem.eps, h⟩
  | bound =>
      intro i k res h
      simp only [mGo] at h
      by_cases hb : boundOK s i = true
      · rw [if_pos hb] at h; exact ⟨i, MSem.boundI hb, h⟩
      · rw [if_neg hb] at h; cases h
  | eol =>
      intro i k res h
      simp only [mGo] at h
      by_cases hb : eolOK s i = true
      · rw [if_pos hb] at h; exact ⟨i, MSem.eolI hb, h⟩
      · rw [if_neg hb] at h; cases h
  | cls p =>
      intro i k res h
      simp only [mGo] at h
      split at h
      next c hg =>
        split at h
        next hp => exact ⟨i + 1, MSem.cls hg hp, h⟩
        next => cases h
      next => cases h
  | seq a b iha ihb =>
      intro i k res h
      simp only [mGo] at h
      obtain ⟨j, hja, h2⟩ := iha i _ res h
      obtain ⟨l, hlb, h3⟩ := ihb j _ res h2
      exact ⟨l, MSem.seqI hja hlb, h3⟩
  | alt a b iha ihb =>
      intro i k res h
      simp only [mGo] at h
      rcases orElse_eq_some h with h1 | h1
      · obtain ⟨j, hj, h2⟩ := iha i k res h1
        exact ⟨j, MSem.altL hj, h2⟩
      · obtain ⟨j, hj, h2⟩ := ihb i k res h1
        exact ⟨j, MSem.altR hj, h2⟩
  | star lz r ihr =>
      intro i k res h
      simp only [mGo] at h
      have loop : mGo s deeper r i
          (fun j => if j = i then none else deeper (Rx.star lz r) j k) = some res →
          ∃ j, MSem s (Rx.star lz r) i j ∧ k j = some res := by
        intro hB
        obtain ⟨j, hj, h2⟩ := ihr i _ res hB
        by_cases hji : j = i
        · rw [if_pos hji] at h2; cases h2
        · rw [if_neg hji] at h2
          obtain ⟨l, hl, h3⟩ := hd _ j k res h2
          exact ⟨l, MSem.starC hj hl, h3⟩
      cases lz with
      | true =>
          rw [if_pos rfl] at h
          rcases orElse_eq_some h with h1 | h1
          · exact ⟨i, MSem.starN, h1⟩
          · exact loop h1
      | false =>
          rw [if_neg (by simp)] at h
          rcases orElse_eq_some h with h1 | h1
          · exact loop h1
          · exact ⟨i, MSem.starN, h1⟩

theorem mAt_sound (s : Str) :
    ∀ fuel r i k res, mAt s fuel r i k = some res → ∃ j, MSem s r i j ∧ k j = some res := by
  intro fuel
  induction fuel with
  | zero => intro r i k res h; cases h
  | succ f ih => intro r i k res h; exact mGo_sound s (mAt s f) ih r i k res h

theorem firstMatchAt_msem {r : Rx} {s : Str} {i j : Nat}
    (h : firstMatchAt r s i = some j) : MSem s r i j := by
  obtain ⟨j', hm, hk⟩ := mAt_sound s (s.length + 1) r i some j h
  cases hk
  exact hm

/-- A match never moves backwards. -/
theorem msem_le {s : Str} : ∀ {r : Rx} {i j : Nat}, MSem s r i j → i ≤ j := by
  intro r i j h
  induction h with
  | eps => exact Nat.le_refl _
  | cls _ _ => exact Nat.le_succ _
  | seqI _ _ ih1 ih2 => exact Nat.le_trans ih1 ih2
  | altL _ ih => exact ih
  | altR _ ih => exact ih
  | starN => exact Nat.le_refl _
  | starC _ _ ih1 ih2 => exact Nat.le_trans ih1 ih2
  | boundI _ => exact Nat.le_refl _
  | eolI _ => exact Nat.le_refl _

/-- If the scan counted a match, the regex semantically matches somewhere. -/
theorem scanCount_pos {r : Rx} {s : Str} :
    ∀ {fuel i : Nat}, 0 < scanCount r s fuel i → ∃ a b, MSem s r a b := by
  intro fuel
  induction fuel with
  | zero => intro i h; simp [scanCount] at h
  | succ f ih =>
      intro i h
      simp only [scanCount] at h
      split at h
      next => cases h
      next =>
        split at h
        next j hm => exact ⟨i, j, firstMatchAt_msem hm⟩
        next =>
          split at h
          next => cases h
          next => exact ih h

theorem countMatches_pos {r : Rx} {s : Str} (h : 0 < countMatches r s) :
    ∃ a b, MSem s r a b := scanCount_pos h

theorem lc_lc (c : Nat) : lc (lc c) = lc c := by
  unfold lc
  split
  next h =>
    split
    next h2 => omega
    next => rfl
  next => rfl

theorem lowers_lowers (w : Str) : lowers (lowers w) = lowers w := by
  simp only [lowers, List.map_map]
  exact List.map_congr_left (fun c _ => lc_lc c)

theorem drop_cons_of_get? {s : Str} {i d : Nat} (h : s.get? i = some d) :
    s.drop i = d :: s.drop (i + 1) := by
  obtain ⟨hl, hv⟩ := List.get?_eq_some.mp h
  rw [List.drop_eq_getElem_cons hl]
  rw [← hv]
  simp [List.get_eq_getElem]

theorem chRx_lc {ci : Bool} {c d : Nat}
    (hp : (if ci then lc d == lc c else d == c) = true) : lc d = lc c := by
  cases ci with
  | true => simpa using hp
  | false =>
      have hd : d = c := by simpa using hp
      rw [hd]

/-- A literal-word match covers `w.length` characters agreeing with `w`
up to lower-casing. -/
theorem strRx_msem {s : Str} {ci : Bool} :
    ∀ (w : Str) {i j : Nat}, MSem s (strRx ci w) i j →
      j = i + w.length ∧ lowers ((s.drop i).take w.length) = lowers w := by
  intro w
  induction w with
  | nil =>
      intro i j h
      cases h
      exact ⟨by simp, by simp⟩
  | cons c w' ih =>
      intro i j h
      cases h with
      | seqI h1 h2 =>
          cases h1 with
          | cls hg hp =>
              obtain ⟨hj, hrest⟩ := ih h2
              have hdc := chRx_lc (by simpa using hp)
              refine ⟨by simp [hj]; omega, ?_⟩
              rw [drop_cons_of_get? hg]
              simp only [List.length_cons, List.take_succ_cons, lowers, List.map_cons]
              rw [hdc]
              exact congrArg _ hrest

theorem prefixLc_of_take : ∀ (w s : Str), lowers (s.take w.length) = lowers w →
    prefixLc w s = true := by
  intro w
  induction w with
  | nil => intro s _; rfl
  | cons c w' ih =>
      intro s h
      cases s with
      | nil => simp [lowers] at h
      | cons d s' =>
          simp only [List.length_cons, List.take_succ_cons, lowers, List.map_cons,
            List.cons.injEq] at h
          simp only [prefixLc, Bool.and_eq_true, beq_iff_eq]
          exact ⟨h.1.symm, ih s' h.2⟩

theorem occursIn_of_slice {w : Str} :
    ∀ (i : Nat) (s : Str), lowers ((s.drop i).take w.length) = lowers w →
      occursIn w s = true := by
  intro i
  induction i with
  | zero =>
      intro s h
      rw [List.drop_zero] at h
      have hp := prefixLc_of_take w s h
      cases s with
      | nil => exact hp
      | cons d s' => simp [occursIn, hp]
  | succ i ih =>
      intro s h
      cases s with
      | nil =>
          simp only [List.drop_nil, List.take_nil] at h
          have hw : w = [] := by
            have := congrArg List.length h
            simp [lowers] at this
            exact List.eq_nil_of_length_eq_zero this.symm
          subst hw
          rfl
      | cons d s' =>
          rw [List.drop_succ_cons] at h
          simp [occursIn, ih s' h]

theorem occursIn_of_strRx {s : Str} {ci : Bool} {w : Str} {i j : Nat}
    (h : MSem s (strRx ci w) i j) : occursIn w s = true :=
  occursIn_of_slice i s (strRx_msem w h).2

theorem prefixLc_lowers (w : Str) : ∀ s, prefixLc (lowers w) s = prefixLc w s := by
  induction w with
  | nil => intro s; rfl
  | cons c w' ih =>
      intro s
      cases s with
      | nil => rfl
      | cons d s' =>
          simp only [lowers, List.map_cons, prefixLc, lc_lc]
          have hmap : List.map lc w' = lowers w' := rfl
          rw [hmap, ih s']

theorem occursIn_lowers (w : Str) : ∀ s, occursIn (lowers w) s = occursIn w s := by
  intro s
  induction s with
  | nil => simp [occursIn, prefixLc_lowers]
  | cons d s' ih => simp [occursIn, prefixLc_lowers, ih]

theorem msem_rq_elem {s : Str} : ∀ (L : List Rx) {i j : Nat}, MSem s (rq L) i j →
    ∀ e ∈ L, ∃ a b, MSem s e a b := by
  intro L
  induction L with
  | nil => intro i j _ e he; cases he
  | cons x L' ih =>
      intro i j h e he
      cases h with
      | seqI h1 h2 =>
          cases he with
          | head => exact ⟨_, _, h1⟩
          | tail _ hmem => exact ih h2 e hmem

/-- If a pattern of the form `rq L` with a literal word `strRx ci w` among its
parts matches anywhere in `s`, then `w` occurs in `s` up to case. -/
theorem occursIn_of_rq_mem {s : Str} {L : List Rx} {ci : Bool} {w : Str} {i j : Nat}
    (hmem : strRx ci w ∈ L) (h : MSem s (rq L) i j) : occursIn w s = true := by
  obtain ⟨a, b, hab⟩ := msem_rq_elem L h _ hmem
  exact occursIn_of_strRx hab

theorem mem0 {a : Rx} {l : List Rx} : a ∈ a :: l := List.mem_cons_self a l

theorem memS {a b : Rx} {l : List Rx} (h : a ∈ l) : a ∈ b :: l :=
  List.mem_cons_of_mem b h

/-! ## Tier word lemmas: a matching pattern forces a name occurrence -/

theorem occ_word {s : Str} {L : List Rx} {n : Str} {ci : Bool} {i j : Nat}
    (hmem : strRx ci n ∈ L) (h : MSem s (rq L) i j) : occursIn n s = true :=
  occursIn_of_rq_mem hmem h

theorem occ_lower {s : Str} {L : List Rx} {n : Str} {ci : Bool} {i j : Nat}
    (hmem : strRx ci (lowers n) ∈ L) (h : MSem s (rq L) i j) : occursIn n s = true := by
  have hx := occursIn_of_rq_mem hmem h
  rwa [occursIn_lowers] at hx

theorem mem1 {a b : Rx} {l : List Rx} : a ∈ b :: a :: l := memS mem0

theorem mem2 {a b c : Rx} {l : List Rx} : a ∈ b :: c :: a :: l := memS mem1

theorem mem3 {a b c d : Rx} {l : List Rx} : a ∈ b :: c :: d :: a :: l := memS mem2

theorem mem4 {a b c d e : Rx} {l : List Rx} : a ∈ b :: c :: d :: e :: a :: l := memS mem3

theorem mem5 {a b c d e f : Rx} {l : List Rx} : a ∈ b :: c :: d :: e :: f :: a :: l :=
  memS mem4

theorem mem6 {a b c d e f g : Rx} {l : List Rx} :
    a ∈ b :: c :: d :: e :: f :: g :: a :: l := memS mem5

theorem mem7 {a b c d e f g k : Rx} {l : List Rx} :
    a ∈ b :: c :: d :: e :: f :: g :: k :: a :: l := memS mem6

theorem dbPatterns_occurs {n s : Str} :
    ∀ r ∈ dbPatterns n, ∀ {i j : Nat}, MSem s r i j → occursIn n s = true := by
  intro r hr
  simp only [dbPatterns, List.mem_cons, List.not_mem_nil, or_false] at hr
  rcases hr with rfl | rfl | rfl | rfl | rfl | rfl | rfl | rfl <;> intro i j h
  · exact occ_lower mem1 h
  · exact occ_word mem1 h
  · exact occ_lower mem1 h
  · exact occ_word mem1 h
  · exact occ_word mem2 h
  · exact occ_word mem2 h
  · exact occ_lower mem4 h
  · exact occ_word mem4 h

theorem apiPatterns_occurs {n s : Str} :
    ∀ r ∈ apiPatterns n, ∀ {i j : Nat}, MSem s r i j → occursIn n s = true := by
  intro r hr
  simp only [apiPatterns, List.mem_cons, List.not_mem_nil, or_false] at hr
  rcases hr with rfl | rfl | rfl | rfl | rfl | rfl | rfl | rfl <;> intro i j h
  · exact occ_lower mem7 h
  · exact occ_word mem7 h
  · exact occ_lower mem4 h
  · exact occ_word mem4 h
  · exact occ_lower mem3 h
  · exact occ_lower mem3 h
  · exact occ_lower mem6 h
  · exact occ_lower mem6 h

theorem typePatterns_occurs {n s : Str} :
    ∀ r ∈ typePatterns n, ∀ {i j : Nat}, MSem s r i j → occursIn n s = true := by
  intro r hr
  simp only [typePatterns, List.mem_cons, List.not_mem_nil, or_false] at hr
  rcases hr with rfl | rfl | rfl | rfl | rfl | rfl <;> intro i j h
  · exact occ_word mem3 h
  · exact occ_word mem3 h
  · exact occ_word mem2 h
  · exact occ_word mem2 h
  · exact occ_word mem2 h
  · exact occ_word mem6 h

theorem bizPatterns_occurs {n s : Str} :
    ∀ r ∈ bizPatterns n, ∀ {i j : Nat}, MSem s r i j → occursIn n s = true := by
  intro r hr
  simp only [bizPatterns, List.mem_cons, List.not_mem_nil, or_false] at hr
  rcases hr with rfl | rfl | rfl | rfl | rfl | rfl | rfl | rfl | rfl | rfl <;> intro i j h
  · exact occ_lower mem3 h
  · exact occ_lower mem3 h
  · exact occ_lower mem3 h
  · exact occ_lower mem3 h
  · exact occ_word mem3 h
  · exact occ_word mem2 h
  · exact occ_lower mem2 h
  · exact occ_lower mem0 h
  · exact occ_word mem0 h
  · exact occ_word mem1 h

theorem clientPatterns_occurs {n s : Str} :
    ∀ r ∈ clientPatterns n, ∀ {i j : Nat}, MSem s r i j → occursIn n s = true := by
  intro r hr
  simp only [clientPatterns, List.mem_cons, List.not_mem_nil, or_false] at hr
  rcases hr with rfl | rfl | rfl | rfl | rfl | rfl | rfl | rfl | rfl | rfl | rfl | rfl <;>
    intro i j h
  · exact occ_word mem1 h
  · exact occ_word mem2 h
  · exact occ_word mem0 h
  · exact occ_word mem0 h
  · exact occ_word mem0 h
  · exact occ_lower mem1 h
  · exact occ_word mem1 h
  · exact occ_lower mem2 h
  · exact occ_word mem0 h
  · exact occ_word mem1 h
  · exact occ_lower mem2 h
  · exact occ_lower mem2 h

theorem configPatterns_occurs {n s : Str} :
    ∀ r ∈ configPatterns n, ∀ {i j : Nat}, MSem s r i j → occursIn n s = true := by
  intro r hr
  simp only [configPatterns, List.mem_cons, List.not_mem_nil, or_false] at hr
  rcases hr with rfl | rfl | rfl | rfl | rfl | rfl | rfl <;> intro i j h
  · exact occ_word mem2 h
  · exact occ_word mem2 h
  · exact occ_word mem2 h
  · exact occ_word mem2 h
  · exact occ_word mem2 h
  · exact occ_lower mem0 h
  · exact occ_lower mem2 h

theorem weakPatterns_occurs {n s : Str} :
    ∀ r ∈ weakPatterns n, ∀ {i j : Nat}, MSem s r i j → occursIn n s = true := by
  intro r hr
  simp only [weakPatterns, List.mem_cons, List.not_mem_nil, or_false] at hr
  rcases hr with rfl | rfl | rfl | rfl | rfl <;> intro i j h
  · exact occ_word mem2 h
  · exact occ_word mem2 h
  · exact occ_lower mem1 h
  · exact occ_word mem1 h
  · exact occ_word mem1 h

/-- If the name does not occur in the text, no pattern of a
name-containing tier has any matches. -/
theorem counts_zero_of_no_occur {n txt : Str} {pats : List Rx}
    (hw : ∀ r ∈ pats, ∀ {i j : Nat}, MSem txt r i j → occursIn n txt = true)
    (hocc : occursIn n txt = false) : ∀ r ∈ pats, countMatches r txt = 0 := by
  intro r hr
  by_contra hc
  obtain ⟨a, b, hab⟩ := countMatches_pos (Nat.pos_of_ne_zero hc)
  rw [hw r hr hab] at hocc
  cases hocc

/-! ## Fold lemmas for one detector tier -/

theorem runTier_zero {txt : Str} :
    ∀ (pats : List Rx), (∀ p ∈ pats, countMatches p txt = 0) →
      ∀ (tag : String) (weight : Nat) (ua : FileAnalysis),
        runTier tag weight txt pats ua = ua := by
  intro pats
  induction pats with
  | nil => intro _ tag w ua; rfl
  | cons p ps ih =>
      intro h tag w ua
      have hp := h p (List.mem_cons_self _ _)
      have hps : ∀ q ∈ ps, countMatches q txt = 0 :=
        fun q hq => h q (List.mem_cons_of_mem _ hq)
      have hstep : runTier tag w txt (p :: ps) ua = runTier tag w txt ps ua := by
        simp [runTier, hp]
      rw [hstep, ih hps]

theorem runTier_confidence {txt : Str} :
    ∀ (pats : List Rx) (tag : String) (weight : Nat) (ua : FileAnalysis),
      (runTier tag weight txt pats ua).confidence =
        ua.confidence + weight * matchedCount pats txt := by
  intro pats
  induction pats with
  | nil => intro tag w ua; simp [runTier, matchedCount]
  | cons p ps ih =>
      intro tag w ua
      by_cases hp : 0 < countMatches p txt
      · have hstep : runTier tag w txt (p :: ps) ua =
            runTier tag w txt ps
              { ua with usageTypes := addSet ua.usageTypes tag,
                        usageCount := ua.usageCount + countMatches p txt,
                        confidence := ua.confidence + w,
                        details := ua.details ++ [⟨tag, countMatches p txt⟩] } := by
          simp [runTier, hp]
        rw [hstep, ih]
        have hmc : matchedCount (p :: ps) txt = matchedCount ps txt + 1 := by
          simp [matchedCount, List.filter_cons, hp]
        rw [hmc]
        simp [Nat.mul_succ]
        omega
      · have hstep : runTier tag w txt (p :: ps) ua = runTier tag w txt ps ua := by
          simp [runTier, hp]
        rw [hstep, ih]
        have hmc : matchedCount (p :: ps) txt = matchedCount ps txt := by
          simp [matchedCount, List.filter_cons, hp]
        rw [hmc]

/-! ## Classification lemmas -/

theorem classify_riskLevel (mu : ModelUsage) :
    (classify mu).riskLevel = specRiskLevel mu.usageTypes mu.totalConfidence := by
  unfold classify specRiskLevel
  dsimp only
  split_ifs <;> rfl

theorem classify_usageTypes (mu : ModelUsage) :
    (classify mu).usageTypes = mu.usageTypes := by
  unfold classify; dsimp only; split_ifs <;> rfl

theorem classify_totalConfidence (mu : ModelUsage) :
    (classify mu).totalConfidence = mu.totalConfidence := by
  unfold classify; dsimp only; split_ifs <;> rfl

theorem specRiskLevel_mem (types : List String) (conf : Nat) :
    specRiskLevel types conf ∈ fiveRiskLevels := by
  unfold specRiskLevel fiveRiskLevels
  split_ifs <;> simp

/-! ## Per-file analysis collapse lemmas -/

theorem occursIn_nil {n : Str} (hn : n ≠ []) : occursIn n [] = false := by
  cases n with
  | nil => exact absurd rfl hn
  | cons c w => rfl

/-- If the name does not occur in the clean text and no raw-text schema
pattern matches, the per-file analysis yields no `FileAnalysis` at all. -/
theorem analyzeModelContent_none {n p : Str} {isClient : Bool} {raw cleanc : Str}
    (hocc : occursIn n cleanc = false)
    (hcfg : ∀ r ∈ configPatterns n, countMatches r raw = 0) :
    analyzeModelContent n p isClient raw cleanc = none := by
  have hdb := runTier_zero _ (counts_zero_of_no_occur dbPatterns_occurs hocc)
  have hapi := runTier_zero _ (counts_zero_of_no_occur apiPatterns_occurs hocc)
  have htyp := runTier_zero _ (counts_zero_of_no_occur typePatterns_occurs hocc)
  have hbiz := runTier_zero _ (counts_zero_of_no_occur bizPatterns_occurs hocc)
  have hcli := runTier_zero _ (counts_zero_of_no_occur clientPatterns_occurs hocc)
  have hwk := runTier_zero _ (counts_zero_of_no_occur weakPatterns_occurs hocc)
  have hcf := runTier_zero _ hcfg
  unfold analyzeModelContent uaFull
  cases isClient <;> simp [hdb, hapi, htyp, hbiz, hcli, hwk, hcf, uaInit]

/-- An empty (raw, clean) pair — the recovery value of a failed read —
produces no `FileAnalysis` for any nonempty model name. -/
theorem analyzeModelContent_empty {n p : Str} {isClient : Bool} (hn : n ≠ []) :
    analyzeModelContent n p isClient [] [] = none := by
  have hocc := occursIn_nil hn
  exact analyzeModelContent_none hocc
    (counts_zero_of_no_occur configPatterns_occurs hocc)

/-! ## Cache bridge: the threaded pipeline equals the cache-free one -/

theorem CacheWF_nil (fs : FS) : CacheWF fs [] := by
  intro p v h
  simp [lookupC] at h

theorem getFileContent_fst {fs : FS} {c : Cache} (p : Str) (h : CacheWF fs c) :
    (getFileContent fs p c).1 = computeContent fs p := by
  unfold getFileContent
  split
  next v hl => exact h p v hl
  next hl =>
    split
    next content hf => simp [computeContent, hf]
    next hf => simp [computeContent, hf]

theorem getFileContent_wf {fs : FS} {c : Cache} (p : Str) (h : CacheWF fs c) :
    CacheWF fs (getFileContent fs p c).2.1 := by
  unfold getFileContent
  split
  next v hl => exact h
  next hl =>
    split
    next content hf =>
      intro q v hq
      by_cases hpq : p = q
      · subst hpq
        simp [lookupC] at hq
        rw [← hq]
        simp [computeContent, hf]
      · simp [lookupC, hpq] at hq
        exact h q v hq
    next hf => exact h

theorem analyzeModelUsage_fst {fs : FS} {n : Str} {f : SrcFile} {c : Cache}
    (h : CacheWF fs c) : (analyzeModelUsage fs n f c).1 = pureFA fs n f := by
  unfold analyzeModelUsage pureFA
  rw [getFileContent_fst f.path h]

theorem analyzeModelUsage_wf {fs : FS} {n : Str} {f : SrcFile} {c : Cache}
    (h : CacheWF fs c) : CacheWF fs (analyzeModelUsage fs n f c).2 :=
  getFileContent_wf f.path h

theorem stepFn_eq {fs : FS} {n : Str} {mu : ModelUsage} {c : Cache} {f : SrcFile}
    (h : CacheWF fs c) :
    stepFn fs n (mu, c) f =
      (foldFile mu (pureFA fs n f), (analyzeModelUsage fs n f c).2) := by
  unfold stepFn
  dsimp only
  rw [analyzeModelUsage_fst h]

theorem fileLoop_fold (fs : FS) (n : Str) :
    ∀ (files : List SrcFile) (mu : ModelUsage) (c : Cache), CacheWF fs c →
      (files.foldl (stepFn fs n) (mu, c)).1 =
        (files.map (pureFA fs n)).foldl foldFile mu ∧
      CacheWF fs (files.foldl (stepFn fs n) (mu, c)).2 := by
  intro files
  induction files with
  | nil => intro mu c h; exact ⟨rfl, h⟩
  | cons f fsl ih =>
      intro mu c h
      rw [List.foldl_cons, List.map_cons, List.foldl_cons, stepFn_eq h]
      exact ih _ _ (analyzeModelUsage_wf h)

theorem analyzeOneModel_fst {fs : FS} {files : List SrcFile} {n : Str} {c : Cache}
    (h : CacheWF fs c) :
    (analyzeOneModel fs files n c).1 = pureModelUsage fs files n := by
  unfold analyzeOneModel pureModelUsage
  exact congrArg classify (fileLoop_fold fs n files muInit c h).1

theorem analyzeOneModel_wf {fs : FS} {files : List SrcFile} {n : Str} {c : Cache}
    (h : CacheWF fs c) : CacheWF fs (analyzeOneModel fs files n c).2 :=
  (fileLoop_fold fs n files muInit c h).2

theorem modelLoop_fold (fs : FS) (files : List SrcFile) :
    ∀ (models : List Model) (out : List (Str × ModelUsage)) (c : Cache),
      CacheWF fs c →
      (models.foldl (stepAll fs files) (out, c)).1 = out ++ pureAll fs files models ∧
      CacheWF fs (models.foldl (stepAll fs files) (out, c)).2 := by
  intro models
  induction models with
  | nil => intro out c h; exact ⟨by simp [pureAll], h⟩
  | cons m ms ih =>
      intro out c h
      have hstep : stepAll fs files (out, c) m =
          (out ++ [(m.name, pureModelUsage fs files m.name)],
            (analyzeOneModel fs files m.name c).2) := by
        unfold stepAll
        dsimp only
        rw [analyzeOneModel_fst h]
      rw [List.foldl_cons, hstep]
      obtain ⟨h1, h2⟩ := ih _ _ (analyzeOneModel_wf h)
      refine ⟨?_, h2⟩
      rw [h1]
      simp [pureAll]

theorem analyzeAllModelsWith_eq {fs : FS} {files : List SrcFile}
    {models : List Model} {c : Cache} (h : CacheWF fs c) :
    analyzeAllModelsWith fs files models c = pureAll fs files models := by
  unfold analyzeAllModelsWith analyzeAllAux
  have := (modelLoop_fold fs files models [] c h).1
  simpa using this

theorem analyzeAllModels_eq (fs : FS) (files : List SrcFile) (models : List Model) :
    analyzeAllModels fs files models = pureAll fs files models :=
  analyzeAllModelsWith_eq (CacheWF_nil fs)

theorem finalCache_wf (fs : FS) (files : List SrcFile) (models : List Model) :
    CacheWF fs (finalCache fs files models) := by
  unfold finalCache analyzeAllAux
  exact (modelLoop_fold fs files models [] [] (CacheWF_nil fs)).2

/-! ## Pure-pipeline facts -/

theorem pureAll_keys (fs : FS) (files : List SrcFile) (models : List Model) :
    (pureAll fs files models).map Prod.fst = models.map Model.name := by
  simp [pureAll, List.map_map]

theorem pureAll_mem {fs : FS} {files : List SrcFile} {models : List Model}
    {x : Str} {mu : ModelUsage} (h : (x, mu) ∈ pureAll fs files models) :
    mu = pureModelUsage fs files x := by
  unfold pureAll at h
  obtain ⟨m, hm, heq⟩ := List.mem_map.mp h
  cases heq
  rfl

theorem pureModelUsage_of_none {fs : FS} {files : List SrcFile} {n : Str}
    (h : ∀ f ∈ files, pureFA fs n f = none) :
    pureModelUsage fs files n = classify muInit := by
  unfold pureModelUsage
  congr 1
  induction files with
  | nil => rfl
  | cons f fsl ih =>
      rw [List.map_cons, List.foldl_cons, h f (List.mem_cons_self _ _)]
      exact ih (fun q hq => h q (List.mem_cons_of_mem _ hq))

/-! ## Replacement decomposition: every match becomes one space -/

theorem scanRep_repl {r : Rx} {s : Str} :
    ∀ (fuel i : Nat), s.length + 1 ≤ fuel + i →
      Repl r s i (scanRep sp r s fuel i) := by
  intro fuel
  induction fuel with
  | zero =>
      intro i hle
      have hlen : s.length < i := by omega
      exact Repl.past hlen
  | succ f ih =>
      intro i hle
      by_cases hlen : s.length < i
      · have hout : scanRep sp r s (f + 1) i = [] := by
          simp [scanRep, hlen]
        rw [hout]
        exact Repl.past hlen
      · have hile : i ≤ s.length := Nat.le_of_not_lt hlen
        cases hm : firstMatchAt r s i with
        | some j =>
            have hsem := firstMatchAt_msem hm
            have hij := msem_le hsem
            by_cases hlt : i < j
            · have hout : scanRep sp r s (f + 1) i = 32 :: scanRep sp r s f j := by
                simp [scanRep, hlen, hm, hlt, sp]
              rw [hout]
              exact Repl.rep hsem hlt (ih j (by omega))
            · have hji : j = i := Nat.le_antisymm (Nat.le_of_not_lt hlt) hij
              subst hji
              by_cases hend : j = s.length
              · have hout : scanRep sp r s (f + 1) j = [32] := by
                  simp only [scanRep, if_neg hlen, hm]
                  simp [hend, sp]
                rw [hout]
                exact Repl.repEmptyEnd hsem hend
              · have hlt2 : j < s.length := Nat.lt_of_le_of_ne hile hend
                have hout : scanRep sp r s (f + 1) j =
                    32 :: nth s j :: scanRep sp r s f (j + 1) := by
                  simp [scanRep, hlen, hm, hend, sp]
                rw [hout]
                exact Repl.repEmptyMid hsem hlt2 (ih (j + 1) (by omega))
        | none =>
            by_cases hend : i = s.length
            · have hout : scanRep sp r s (f + 1) i = [] := by
                simp only [scanRep, if_neg hlen, hm]
                simp [hend]
              rw [hout, hend]
              exact Repl.done
            · have hlt2 : i < s.length := Nat.lt_of_le_of_ne hile hend
              have hout : scanRep sp r s (f + 1) i =
                  nth s i :: scanRep sp r s f (i + 1) := by
                simp [scanRep, hlen, hm, hend]
              rw [hout]
              exact Repl.keep hm hlt2 (ih (i + 1) (by omega))

theorem replaceAll_repl (r : Rx) (s : Str) : Repl r s 0 (replaceAllWith sp r s) :=
  scanRep_repl (s.length + 2) 0 (by omega)

/-! ## Fold lemmas for the sections of the strict analyzer -/

theorem runTierS_flag {txt : Str} :
    ∀ (pats : List Rx) (tag : String) (gate : Option Nat) (u : UsageDetailS),
      (runTierS tag gate txt pats u).isRealUsage =
        (u.isRealUsage || pats.any (fun p =>
          decide (0 < countMatches p txt) && gateOK gate (countMatches p txt))) := by
  intro pats
  induction pats with
  | nil => intro tag gate u; simp [runTierS]
  | cons p ps ih =>
      intro tag gate u
      by_cases hp : 0 < countMatches p txt
      · have hstep : runTierS tag gate txt (p :: ps) u =
            runTierS tag gate txt ps
              { u with usages := u.usages ++ [⟨tag, countMatches p txt⟩],
                       isRealUsage := u.isRealUsage || gateOK gate (countMatches p txt) } := by
          simp [runTierS, hp]
        rw [hstep, ih]
        simp [hp, Bool.or_assoc]
      · have hstep : runTierS tag gate txt (p :: ps) u = runTierS tag gate txt ps u := by
          simp [runTierS, hp]
        rw [hstep, ih]
        simp [hp]

theorem runTierS_usage_any {txt : Str} :
    ∀ (pats : List Rx) (tag : String) (gate : Option Nat) (u : UsageDetailS) (T : String),
      ((runTierS tag gate txt pats u).usages.any (fun e => e.utype == T)) =
        (u.usages.any (fun e => e.utype == T) ||
          (tag == T && pats.any (fun p => decide (0 < countMatches p txt)))) := by
  intro pats
  induction pats with
  | nil => intro tag gate u T; simp [runTierS]
  | cons p ps ih =>
      intro tag gate u T
      by_cases hp : 0 < countMatches p txt
      · have hstep : runTierS tag gate txt (p :: ps) u =
            runTierS tag gate txt ps
              { u with usages := u.usages ++ [⟨tag, countMatches p txt⟩],
                       isRealUsage := u.isRealUsage || gateOK gate (countMatches p txt) } := by
          simp [runTierS, hp]
        rw [hstep, ih]
        have hdec : decide (0 < countMatches p txt) = true := decide_eq_true hp
        simp only [List.any_append, List.any_cons, List.any_nil, hdec, Bool.true_or,
          Bool.or_false]
        cases hb : (tag == T) <;>
          cases hc : u.usages.any (fun e => e.utype == T) <;>
            cases hd : ps.any (fun q => decide (0 < countMatches q txt)) <;>
              simp [hb, hc, hd]
      · have hstep : runTierS tag gate txt (p :: ps) u = runTierS tag gate txt ps u := by
          simp [runTierS, hp]
        rw [hstep, ih]
        simp [hp]

theorem and_gate1 (c : Nat) : (decide (0 < c) && gateOK (some 1) c) = decide (0 < c) := by
  by_cases h : 0 < c <;> simp [gateOK, h] <;> omega

theorem and_gate2 (c : Nat) : (decide (0 < c) && gateOK (some 2) c) = decide (2 ≤ c) := by
  by_cases h : 2 ≤ c <;> by_cases h0 : 0 < c <;> simp [gateOK, h, h0] <;> omega

theorem any_const_false {A : Type} (l : List A) : (l.any fun _ => false) = false := by
  induction l with
  | nil => rfl
  | cons x xs ih => simp [ih]

theorem and_decide1 (c : Nat) : (decide (0 < c) && decide (1 ≤ c)) = decide (0 < c) := by
  by_cases h : 0 < c <;> simp [h] <;> omega

theorem and_decide2 (c : Nat) : (decide (0 < c) && decide (2 ≤ c)) = decide (2 ≤ c) := by
  by_cases h : 2 ≤ c <;> by_cases h0 : 0 < c <;> simp [h, h0] <;> omega

/-! ## Claim C9: the BUSINESS_LOGIC gate of the strict analyzer -/

/-- C9: in the strict analyzer variant, for every (model, file) pair, a
BUSINESS_LOGIC pattern that matches records a BUSINESS_LOGIC usage signal
starting from the first match, but the per-file real-usage flag is set by
that tier only when some pattern has at least 2 matches; a single
BUSINESS_LOGIC match with no other real-usage tier firing leaves the flag
false. -/
theorem c9_strict_business_logic_gate :
    ∀ (n p : Str) (isClient : Bool) (raw : Str),
      ((strictUA n p isClient raw).usages.any
          (fun e => e.utype == "BUSINESS_LOGIC")
        = tierFiredS (sbizPatterns n) (cleanStrict raw)) ∧
      ((strictUA n p isClient raw).isRealUsage =
        ((!isClient && tierFiredS (sdbPatterns n) (cleanStrict raw)) ||
         tierFiredS (sapiPatterns n) (cleanStrict raw) ||
         (isClient && tierFiredS (sclientPatterns n) (cleanStrict raw)) ||
         tierGate2 (sbizPatterns n) (cleanStrict raw))) ∧
      (tierFiredS (sdbPatterns n) (cleanStrict raw) = false →
       tierFiredS (sapiPatterns n) (cleanStrict raw) = false →
       tierFiredS (sclientPatterns n) (cleanStrict raw) = false →
       tierGate2 (sbizPatterns n) (cleanStrict raw) = false →
       (strictUA n p isClient raw).isRealUsage = false) := by
  intro n p isClient raw
  have hBL : (strictUA n p isClient raw).usages.any
      (fun e => e.utype == "BUSINESS_LOGIC")
      = tierFiredS (sbizPatterns n) (cleanStrict raw) := by
    unfold strictUA
    cases isClient <;> simp [runTierS_usage_any, tierFiredS]
  have hFlag : (strictUA n p isClient raw).isRealUsage =
      ((!isClient && tierFiredS (sdbPatterns n) (cleanStrict raw)) ||
       tierFiredS (sapiPatterns n) (cleanStrict raw) ||
       (isClient && tierFiredS (sclientPatterns n) (cleanStrict raw)) ||
       tierGate2 (sbizPatterns n) (cleanStrict raw)) := by
    unfold strictUA
    cases isClient <;>
      simp [runTierS_flag, gateOK, and_decide1, and_decide2, tierFiredS, tierGate2,
        any_const_false, Bool.or_assoc]
  refine ⟨hBL, hFlag, ?_⟩
  intro h1 h2 h3 h4
  rw [hFlag, h1, h2, h3, h4]
  cases isClient <;> simp

theorem countP_eq_one_of_nodup {l : List Str} {a : Str} (hnd : l.Nodup) (ha : a ∈ l) :
    l.countP (fun x => decide (x = a)) = 1 := by
  induction l with
  | nil => cases ha
  | cons b bs ih =>
      rw [List.countP_cons]
      rcases List.mem_cons.mp ha with rfl | hmem
      · have hz : bs.countP (fun x => decide (x = a)) = 0 := by
          rw [List.countP_eq_zero]
          intro x hx
          simp only [decide_eq_true_eq]
          intro hxa
          subst hxa
          exact (List.nodup_cons.mp hnd).1 hx
        simp [hz]
      · have hne : b ≠ a := by
          intro hba
          subst hba
          exact (List.nodup_cons.mp hnd).1 hmem
        have hcnt := ih (List.nodup_cons.mp hnd).2 hmem
        simp [hcnt, hne]

/-! ## Claim C1: the per-model risk level equals the decision rule of the spec -/

/-- C1: for every model, the risk level assigned by the per-model classifier
equals the fixed-priority decision rule (SAFE / PROBABLY_SAFE / SUSPICIOUS /
LIKELY_UNUSED / DEFINITELY_UNUSED with the 30 and 20 thresholds) evaluated
over the aggregated usage-type set and total confidence of the model. -/
theorem c1_risk_matches_spec_rule (fs : FS) (files : List SrcFile)
    (models : List Model) :
    ∀ e ∈ analyzeAllModels fs files models,
      e.2.riskLevel = specRiskLevel e.2.usageTypes e.2.totalConfidence := by
  intro e he
  rw [analyzeAllModels_eq] at he
  obtain ⟨x, mu⟩ := e
  have hmu := pureAll_mem he
  subst hmu
  unfold pureModelUsage
  rw [classify_riskLevel, classify_usageTypes, classify_totalConfidence]

/-- Witness for C1 at a concrete one-model, zero-file run. -/
theorem c1_witness :
    ((na "User", classify muInit) ∈ analyzeAllModels fsEmpty [] modelsUser) ∧
    (classify muInit).riskLevel =
      specRiskLevel (classify muInit).usageTypes (classify muInit).totalConfidence :=
  ⟨by decide, c1_risk_matches_spec_rule fsEmpty [] modelsUser
    (na "User", classify muInit) (by decide)⟩

/-! ## Claim C10: classification is exhaustive, "UNKNOWN" never survives -/

/-- C10: every `ModelUsage` stored in the output map carries one of the five
final risk levels; the initial "UNKNOWN" placeholder is always overwritten. -/
theorem c10_risk_level_total (fs : FS) (files : List SrcFile)
    (models : List Model) :
    ∀ e ∈ analyzeAllModels fs files models,
      e.2.riskLevel ∈ fiveRiskLevels ∧ e.2.riskLevel ≠ "UNKNOWN" := by
  intro e he
  rw [analyzeAllModels_eq] at he
  obtain ⟨x, mu⟩ := e
  have hmu := pureAll_mem he
  subst hmu
  unfold pureModelUsage
  rw [classify_riskLevel]
  refine ⟨specRiskLevel_mem _ _, ?_⟩
  intro hcon
  have hmem := specRiskLevel_mem
    ((files.map (pureFA fs x)).foldl foldFile muInit).usageTypes
    ((files.map (pureFA fs x)).foldl foldFile muInit).totalConfidence
  rw [hcon] at hmem
  simp [fiveRiskLevels] at hmem

/-- Witness for C10 at a concrete one-model, zero-file run. -/
theorem c10_witness :
    ((na "User", classify muInit) ∈ analyzeAllModels fsEmpty [] modelsUser) ∧
    (classify muInit).riskLevel ∈ fiveRiskLevels ∧
    (classify muInit).riskLevel ≠ "UNKNOWN" :=
  ⟨by decide, c10_risk_level_total fsEmpty [] modelsUser
    (na "User", classify muInit) (by decide)⟩

/-! ## Claim C3: exactly one ModelUsage per model; unmentioned models -/

/-- C3: the output map has exactly one entry per schema model, in schema
order; a model mentioned in zero files (no per-file analysis produced) gets
total confidence 0, an empty usage-type set and risk DEFINITELY_UNUSED. -/
theorem c3_exactly_one_model_usage (fs : FS) (files : List SrcFile)
    (models : List Model) (hnd : (models.map Model.name).Nodup) :
    ((analyzeAllModels fs files models).map Prod.fst = models.map Model.name) ∧
    (∀ m ∈ models,
      ((analyzeAllModels fs files models).map Prod.fst).countP
        (fun x => decide (x = m.name)) = 1) ∧
    (∀ m ∈ models, (∀ f ∈ files, pureFA fs m.name f = none) →
      ∀ mu, (m.name, mu) ∈ analyzeAllModels fs files models →
        mu.totalConfidence = 0 ∧ mu.usageTypes = [] ∧
        mu.riskLevel = "DEFINITELY_UNUSED") := by
  have hkeys : (analyzeAllModels fs files models).map Prod.fst =
      models.map Model.name := by
    rw [analyzeAllModels_eq, pureAll_keys]
  refine ⟨hkeys, ?_, ?_⟩
  · intro m hm
    rw [hkeys]
    exact countP_eq_one_of_nodup hnd (List.mem_map_of_mem Model.name hm)
  · intro m hm hnone mu hmem
    rw [analyzeAllModels_eq] at hmem
    have hmu := pureAll_mem hmem
    rw [pureModelUsage_of_none hnone] at hmu
    subst hmu
    refine ⟨?_, ?_, ?_⟩
    · rw [classify_totalConfidence]
      rfl
    · rw [classify_usageTypes]
      rfl
    · rw [classify_riskLevel]
      decide

/-- Witness for C3 on the one-model Widget corpus. -/
theorem c3_witness :
    ((modelsWidget.map Model.name).Nodup) ∧
    ((analyzeAllModels fsUses filesOne modelsWidget).map Prod.fst =
      modelsWidget.map Model.name) :=
  ⟨by decide, (c3_exactly_one_model_usage fsUses filesOne modelsWidget (by decide)).1⟩

/-! ## Claim C2: tier weight accumulation -/

/-- C2 counterexample: on the server text `prisma.User.findMany(` two
patterns of the DATABASE_OPERATION tier match (the case-insensitive and the
case-sensitive variant), so the flat tier weight 40 is added twice — the
per-file confidence contribution of the tier is 80, not at most 40. -/
theorem c2_counterexample :
    (runTier "DATABASE_OPERATION" 40 (na "prisma.User.findMany(")
        (dbPatterns (na "User")) (uaInit (na "s") false)).confidence = 80 ∧
    ¬ ((runTier "DATABASE_OPERATION" 40 (na "prisma.User.findMany(")
        (dbPatterns (na "User")) (uaInit (na "s") false)).confidence ≤ 40) :=
  ⟨by decide, by decide⟩

/-- C2 amended: the flat tier weight is added once per *matching pattern* of
the tier (independent of how many matches that pattern has), so the per-file
confidence is the sum over tiers of weight times the number of matching
patterns. -/
theorem c2_amended :
    ∀ (n p : Str) (isClient : Bool) (raw cleanc : Str),
      (uaFull n p isClient raw cleanc).confidence =
        (if isClient then 0 else 40 * matchedCount (dbPatterns n) cleanc) +
        35 * matchedCount (apiPatterns n) cleanc +
        25 * matchedCount (typePatterns n) cleanc +
        20 * matchedCount (bizPatterns n) cleanc +
        (if isClient then 20 * matchedCount (clientPatterns n) cleanc else 0) +
        15 * matchedCount (configPatterns n) raw +
        2 * matchedCount (weakPatterns n) cleanc := by
  intro n p isClient raw cleanc
  unfold uaFull
  cases isClient <;> simp [runTier_confidence, uaInit] <;> omega

/-! ## Claim C5: the clean transform -/

/-- C5: the clean transform applies the seven suppression steps in sequence
(block comments, line comments, markup comments, shell-style comments,
single-quoted strings, double-quoted strings, back-tick template literals),
and every replacement step turns each match into exactly one neutral space
(never deleting it), as witnessed by the `Repl` decomposition of the output. -/
theorem c5_clean_transform :
    (∀ s : Str, cleanContent s =
      replaceAllWith sp backtickRx (replaceAllWith sp doubleQuoteRx
        (replaceAllWith sp singleQuoteRx (replaceAllWith sp shellCommentRx
          (replaceAllWith sp htmlCommentRx (replaceAllWith sp lineCommentRx
            (replaceAllWith sp blockCommentRx s))))))) ∧
    (∀ (r : Rx) (s : Str), Repl r s 0 (replaceAllWith sp r s)) :=
  ⟨fun _ => rfl, replaceAll_repl⟩

/-! ## Claim C4: models mentioned only in a line comment -/

/-- C4 counterexample: the corpus is the single server file `// seed Widget`
— the model name occurs only inside a line comment (the whole file starts
with `//` and has no newline) — yet the raw-text SCHEMA_REFERENCE tier
matches (`seed.*widget`), so Widget gets confidence 15, the usage-type
SCHEMA_REFERENCE, and risk LIKELY_UNUSED rather than DEFINITELY_UNUSED. -/
theorem c4_counterexample :
    ((na "// seed Widget").take 2 = na "//" ∧
      (na "// seed Widget").contains 10 = false) ∧
    (analyzeAllModels fsSeed filesOne modelsWidget).map
        (fun e => (e.1, e.2.riskLevel, e.2.totalConfidence, e.2.usageTypes)) =
      [(na "Widget", "LIKELY_UNUSED", 15, ["SCHEMA_REFERENCE"])] :=
  ⟨by decide, by decide⟩

/-- C4 amended: if comment stripping leaves no (case-insensitive) occurrence
of the model name in the cleaned text — as for a model mentioned only inside
a stripped line comment — then no clean-text tier matches; if additionally
no raw-text SCHEMA_REFERENCE pattern matches the raw text, the file yields
no FileAnalysis at all, and a model all of whose files are like this gets
confidence 0, an empty usage-type set, and risk DEFINITELY_UNUSED. -/
theorem c4_amended :
    (∀ (n p : Str) (isClient : Bool) (raw : Str),
        occursIn n (cleanContent raw) = false →
        (∀ r ∈ configPatterns n, countMatches r raw = 0) →
        analyzeModelContent n p isClient raw (cleanContent raw) = none) ∧
    (∀ (fs : FS) (files : List SrcFile) (models : List Model),
        ∀ m ∈ models,
          (∀ f ∈ files,
            occursIn m.name (computeContent fs f.path).2 = false ∧
            (∀ r ∈ configPatterns m.name,
              countMatches r (computeContent fs f.path).1 = 0)) →
          ∀ mu, (m.name, mu) ∈ analyzeAllModels fs files models →
            mu.totalConfidence = 0 ∧ mu.usageTypes = [] ∧
            mu.riskLevel = "DEFINITELY_UNUSED") := by
  constructor
  · intro n p isClient raw hocc hcfg
    exact analyzeModelContent_none hocc hcfg
  · intro fs files models m hm hfiles mu hmem
    have hnone : ∀ f ∈ files, pureFA fs m.name f = none := by
      intro f hf
      unfold pureFA
      exact analyzeModelContent_none (hfiles f hf).1 (hfiles f hf).2
    rw [analyzeAllModels_eq] at hmem
    have hmu := pureAll_mem hmem
    rw [pureModelUsage_of_none hnone] at hmu
    subst hmu
    refine ⟨?_, ?_, ?_⟩
    · rw [classify_totalConfidence]
      rfl
    · rw [classify_usageTypes]
      rfl
    · rw [classify_riskLevel]
      decide

/-- Witness for the amended C4 on `// uses Widget for legacy support`. -/
theorem c4_witness :
    (occursIn (na "Widget")
        (cleanContent (na "// uses Widget for legacy support")) = false) ∧
    ((na "Widget", classify muInit) ∈ analyzeAllModels fsUses filesOne modelsWidget) ∧
    ((classify muInit).totalConfidence = 0 ∧ (classify muInit).usageTypes = [] ∧
      (classify muInit).riskLevel = "DEFINITELY_UNUSED") :=
  ⟨by decide, by decide,
    c4_amended.2 fsUses filesOne modelsWidget ⟨na "Widget", [], []⟩ (by decide)
      (by decide) (classify muInit) (by decide)⟩

/-! ## Claim C7: the content cache is idempotent and result-transparent -/

/-- C7: requesting an already-cached path returns the cached (raw, clean)
pair with zero filesystem reads and an unchanged cache; and re-running the
analysis with the cache left by a previous run (or any well-formed cache)
yields the same output as a fresh run. -/
theorem c7_cache_idempotent (fs : FS) (files : List SrcFile)
    (models : List Model) (c : Cache) (hwf : CacheWF fs c) :
    (∀ p v, lookupC p c = some v → getFileContent fs p c = (v, c, 0)) ∧
    analyzeAllModelsWith fs files models c = analyzeAllModels fs files models ∧
    CacheWF fs (finalCache fs files models) := by
  refine ⟨?_, ?_, finalCache_wf fs files models⟩
  · intro p v h
    unfold getFileContent
    rw [h]
  · rw [analyzeAllModelsWith_eq hwf, analyzeAllModels_eq]

/-- Witness for C7: a second run of the Widget corpus started from the final cache of a first
run equals the fresh run. -/
theorem c7_witness :
    CacheWF fsUses (finalCache fsUses filesOne modelsWidget) ∧
    analyzeAllModelsWith fsUses filesOne modelsWidget
        (finalCache fsUses filesOne modelsWidget) =
      analyzeAllModels fsUses filesOne modelsWidget :=
  ⟨finalCache_wf fsUses filesOne modelsWidget,
    (c7_cache_idempotent fsUses filesOne modelsWidget
      (finalCache fsUses filesOne modelsWidget)
      (finalCache_wf fsUses filesOne modelsWidget)).2.1⟩

/-! ## Claim C8: per-file read failures are recovered locally -/

theorem foldFA_filter (fs : FS) (p : Str) (n : Str) (hfail : fs p = none)
    (hn : n ≠ []) :
    ∀ (files : List SrcFile) (mu : ModelUsage),
      (files.map (pureFA fs n)).foldl foldFile mu =
      (((files.filter (fun f => decide (f.path ≠ p))).map
        (pureFA fs n)).foldl foldFile mu) := by
  intro files
  induction files with
  | nil => intro mu; rfl
  | cons f fsl ih =>
      intro mu
      by_cases hfp : f.path = p
      · have hskip : pureFA fs n f = none := by
          unfold pureFA
          rw [hfp]
          have hcc : computeContent fs p = (([] : Str), ([] : Str)) := by
            simp [computeContent, hfail]
          rw [hcc]
          exact analyzeModelContent_empty hn
        have hfilter : (f :: fsl).filter (fun f => decide (f.path ≠ p)) =
            fsl.filter (fun f => decide (f.path ≠ p)) := by
          simp [List.filter_cons, hfp]
        rw [hfilter, List.map_cons, List.foldl_cons, hskip]
        exact ih mu
      · have hfilter : (f :: fsl).filter (fun f => decide (f.path ≠ p)) =
            f :: fsl.filter (fun f => decide (f.path ≠ p)) := by
          simp [List.filter_cons, hfp]
        rw [hfilter, List.map_cons, List.foldl_cons, List.map_cons, List.foldl_cons]
        exact ih _

/-- C8: a failing read is recovered locally: on a cache miss the reader
returns empty raw and clean text (after exactly one attempted read) without
caching; empty content yields no FileAnalysis for any nonempty model name;
and the whole analysis equals the analysis of the remaining files — the scan
continues rather than aborting. -/
theorem c8_read_failure_recovered (fs : FS) (p : Str) (files : List SrcFile)
    (models : List Model) (hfail : fs p = none)
    (hnames : ∀ m ∈ models, m.name ≠ []) :
    (∀ c, lookupC p c = none →
      getFileContent fs p c = ((([] : Str), ([] : Str)), c, 1)) ∧
    (∀ (n q : Str) (isClient : Bool), n ≠ [] →
      analyzeModelContent n q isClient [] [] = none) ∧
    analyzeAllModels fs files models =
      analyzeAllModels fs (files.filter (fun f => decide (f.path ≠ p))) models := by
  refine ⟨?_, ?_, ?_⟩
  · intro c hc
    unfold getFileContent
    rw [hc, hfail]
  · intro n q isClient hn
    exact analyzeModelContent_empty hn
  · rw [analyzeAllModels_eq, analyzeAllModels_eq]
    unfold pureAll
    apply List.map_congr_left
    intro m hm
    unfold pureModelUsage
    rw [foldFA_filter fs p m.name hfail (hnames m hm) files muInit]

/-- Witness for C8: the Widget corpus plus an unreadable second file `g`
classifies exactly as the corpus without `g`. -/
theorem c8_witness :
    (fsUses (na "g") = none) ∧
    analyzeAllModels fsUses filesTwo modelsWidget =
      analyzeAllModels fsUses
        (filesTwo.filter (fun f => decide (f.path ≠ na "g"))) modelsWidget :=
  ⟨by decide, (c8_read_failure_recovered fsUses (na "g") filesTwo modelsWidget
      (by decide) (by decide)).2.2⟩

/-! ## Relationship-audit helper lemmas -/

theorem riskOf_eq :
    ∀ {usage : List (Str × ModelUsage)} {x : Str} {mu : ModelUsage},
      (usage.map Prod.fst).Nodup → (x, mu) ∈ usage → riskOf usage x = mu.riskLevel := by
  intro usage
  induction usage with
  | nil => intro x mu _ h; cases h
  | cons e es ih =>
      intro x mu hnd hmem
      rw [List.map_cons, List.nodup_cons] at hnd
      obtain ⟨y, muy⟩ := e
      by_cases hex : y = x
      · subst hex
        have hfind : (((y, muy) :: es).find? (fun q => q.1 == y)) = some (y, muy) :=
          List.find?_cons_of_pos _ (by simp)
        unfold riskOf
        rw [hfind]
        rcases List.mem_cons.mp hmem with heq | hmem2
        · rw [← heq]
        · exact absurd (List.mem_map.mpr ⟨(y, mu), hmem2, rfl⟩) hnd.1
      · have hfind : (((y, muy) :: es).find? (fun q => q.1 == x)) =
            es.find? (fun q => q.1 == x) :=
          List.find?_cons_of_neg _ (by simp [hex])
        unfold riskOf
        rw [hfind]
        rcases List.mem_cons.mp hmem with heq | hmem2
        · exact absurd (congrArg Prod.fst heq.symm) hex
        · have hrec := ih hnd.2 hmem2
          unfold riskOf at hrec
          exact hrec

theorem bucket_mem {usage : List (Str × ModelUsage)}
    {q : Str × ModelUsage → Bool} {x : Str} :
    (x ∈ (usage.filter q).map Prod.fst) ↔
      ∃ mu, (x, mu) ∈ usage ∧ q (x, mu) = true := by
  constructor
  · intro h
    obtain ⟨e, he, hex⟩ := List.mem_map.mp h
    obtain ⟨hmem, hq⟩ := List.mem_filter.mp he
    obtain ⟨y, muy⟩ := e
    cases hex
    exact ⟨muy, hmem, hq⟩
  · rintro ⟨mu, hmem, hq⟩
    exact List.mem_map.mpr ⟨(x, mu), List.mem_filter.mpr ⟨hmem, hq⟩, rfl⟩

theorem mem_filter_map_name {models : List Model} {q : Model → Bool} {x : Str} :
    (x ∈ (models.filter q).map Model.name) ↔
      ∃ o ∈ models, q o = true ∧ o.name = x := by
  constructor
  · intro h
    obtain ⟨o, ho, hox⟩ := List.mem_map.mp h
    obtain ⟨hmem, hq⟩ := List.mem_filter.mp ho
    exact ⟨o, hmem, hq, hox⟩
  · rintro ⟨o, hmem, hq, hox⟩
    exact List.mem_map.mpr ⟨o, List.mem_filter.mpr ⟨hmem, hq⟩, hox⟩

theorem unusedBucket_iff {usage : List (Str × ModelUsage)} {x : Str}
    {mux : ModelUsage} (hund : (usage.map Prod.fst).Nodup)
    (hx : (x, mux) ∈ usage) :
    ((unusedBucket usage).contains x = true ↔
      riskOf usage x = "DEFINITELY_UNUSED") := by
  unfold unusedBucket
  constructor
  · intro h
    obtain ⟨mu, hmem, hq⟩ := bucket_mem.mp (List.elem_iff.mp h)
    rw [riskOf_eq hund hmem]
    simpa using hq
  · intro h
    have hrl : mux.riskLevel = "DEFINITELY_UNUSED" := by
      rw [← riskOf_eq hund hx]
      exact h
    exact List.elem_iff.mpr (bucket_mem.mpr ⟨mux, hx, by simp [hrl]⟩)

theorem riskyBucket_iff {usage : List (Str × ModelUsage)} {x : Str}
    {mux : ModelUsage} (hund : (usage.map Prod.fst).Nodup)
    (hx : (x, mux) ∈ usage) :
    ((riskyBucket usage).contains x = true ↔
      (riskOf usage x = "SUSPICIOUS" ∨ riskOf usage x = "LIKELY_UNUSED")) := by
  unfold riskyBucket
  constructor
  · intro h
    obtain ⟨mu, hmem, hq⟩ := bucket_mem.mp (List.elem_iff.mp h)
    rw [riskOf_eq hund hmem]
    simpa using hq
  · intro h
    have hrl : mux.riskLevel = "SUSPICIOUS" ∨ mux.riskLevel = "LIKELY_UNUSED" := by
      rw [← riskOf_eq hund hx]
      exact h
    refine List.elem_iff.mpr (bucket_mem.mpr ⟨mux, hx, ?_⟩)
    rcases hrl with h1 | h1 <;> simp [h1]

/-! ## Claim C6: the relationship auditor -/

/-- C6: for every at-risk model M (SUSPICIOUS, LIKELY_UNUSED or
DEFINITELY_UNUSED) the auditor produces an entry collecting exactly the
other declared models having a declared relationship whose target is M
(single hop), and its danger flag holds iff at least one referencing model
is itself SAFE or PROBABLY_SAFE. -/
theorem c6_relationship_audit (models : List Model)
    (usage : List (Str × ModelUsage))
    (hkeys : usage.map Prod.fst = models.map Model.name)
    (hnd : (models.map Model.name).Nodup)
    (hfive : ∀ e ∈ usage, e.2.riskLevel ∈ fiveRiskLevels) :
    (∀ m ∈ models, atRisk (riskOf usage m.name) = true →
      ∃ rep ∈ analyzeRelationships models usage, rep.target = m.name) ∧
    (∀ rep ∈ analyzeRelationships models usage,
      atRisk (riskOf usage rep.target) = true ∧
      (∀ x : Str, x ∈ rep.referencedBy ↔
        (∃ o ∈ models, o.name = x ∧ x ≠ rep.target ∧
          ∃ rel ∈ o.relationships, rel.model = rep.target)) ∧
      (rep.danger = true ↔ ∃ x ∈ rep.referencedBy,
        riskOf usage x = "SAFE" ∨ riskOf usage x = "PROBABLY_SAFE")) := by
  have hund : (usage.map Prod.fst).Nodup := by rw [hkeys]; exact hnd
  have hentry : ∀ x, x ∈ models.map Model.name → ∃ mu, (x, mu) ∈ usage := by
    intro x hx
    rw [← hkeys] at hx
    obtain ⟨e, he, hex⟩ := List.mem_map.mp hx
    obtain ⟨y, muy⟩ := e
    cases hex
    exact ⟨muy, he⟩
  have hrelated : ∀ (nm y : Str), y ∈ relatedModelsOf models nm →
      y ∈ models.map Model.name := by
    intro nm y hy
    unfold relatedModelsOf at hy
    obtain ⟨o, ho, _, hox⟩ := mem_filter_map_name.mp hy
    rw [← hox]
    exact List.mem_map_of_mem _ ho
  have hcond : ∀ m ∈ models,
      (((unusedBucket usage).contains m.name ||
        (riskyBucket usage).contains m.name) = true ↔
       atRisk (riskOf usage m.name) = true) := by
    intro m hm
    obtain ⟨mux, hx⟩ := hentry m.name (List.mem_map_of_mem _ hm)
    rw [Bool.or_eq_true, unusedBucket_iff hund hx, riskyBucket_iff hund hx]
    unfold atRisk
    simp only [Bool.or_eq_true, beq_iff_eq]
    tauto
  have hsafe : ∀ (y : Str) (muy : ModelUsage), (y, muy) ∈ usage →
      ((!((unusedBucket usage).contains y) &&
        !((riskyBucket usage).contains y)) = true ↔
       (riskOf usage y = "SAFE" ∨ riskOf usage y = "PROBABLY_SAFE")) := by
    intro y muy hy
    have h5 : riskOf usage y = muy.riskLevel := riskOf_eq hund hy
    have hm5 := hfive (y, muy) hy
    simp only [fiveRiskLevels, List.mem_cons, List.not_mem_nil, or_false] at hm5
    rw [Bool.and_eq_true, Bool.not_eq_true', Bool.not_eq_true']
    constructor
    · rintro ⟨hu, hr⟩
      have hnu : ¬ riskOf usage y = "DEFINITELY_UNUSED" := by
        intro hcontra
        rw [(unusedBucket_iff hund hy).mpr hcontra] at hu
        cases hu
      have hnr : ¬ (riskOf usage y = "SUSPICIOUS" ∨
          riskOf usage y = "LIKELY_UNUSED") := by
        intro hcontra
        rw [(riskyBucket_iff hund hy).mpr hcontra] at hr
        cases hr
      rw [h5] at hnu hnr ⊢
      rcases hm5 with h | h | h | h | h
      · exact Or.inl h
      · exact Or.inr h
      · exact absurd (Or.inl h) hnr
      · exact absurd (Or.inr h) hnr
      · exact absurd h hnu
    · intro hs
      constructor
      · cases hcc : (unusedBucket usage).contains y
        · rfl
        · exfalso
          have hdef := (unusedBucket_iff hund hy).mp hcc
          rcases hs with h | h <;> rw [h] at hdef <;> simp at hdef
      · cases hcc : (riskyBucket usage).contains y
        · rfl
        · exfalso
          have hdef := (riskyBucket_iff hund hy).mp hcc
          rcases hs with h | h <;> rcases hdef with h2 | h2 <;> rw [h] at h2 <;>
            simp at h2
  constructor
  · intro m hm hrisk
    refine ⟨⟨m.name, relatedModelsOf models m.name,
      !((relatedModelsOf models m.name).filter (fun rel =>
        !((unusedBucket usage).contains rel) &&
        !((riskyBucket usage).contains rel))).isEmpty⟩, ?_, rfl⟩
    apply List.mem_filterMap.mpr
    refine ⟨m, hm, ?_⟩
    unfold auditOne
    rw [if_pos ((hcond m hm).mpr hrisk)]
  · intro rep hrep
    obtain ⟨m, hm, hsome⟩ := List.mem_filterMap.mp hrep
    unfold auditOne at hsome
    by_cases hc : ((unusedBucket usage).contains m.name ||
        (riskyBucket usage).contains m.name) = true
    · rw [if_pos hc] at hsome
      injection hsome with hsome
      subst hsome
      refine ⟨(hcond m hm).mp hc, ?_, ?_⟩
      · intro x
        dsimp only
        unfold relatedModelsOf
        rw [mem_filter_map_name]
        constructor
        · rintro ⟨o, ho, hq, hox⟩
          simp only [Bool.and_eq_true, decide_eq_true_eq, List.any_eq_true,
            beq_iff_eq] at hq
          obtain ⟨hne, rel, hrel, hrm⟩ := hq
          subst hox
          exact ⟨o, ho, rfl, hne, rel, hrel, hrm⟩
        · rintro ⟨o, ho, hox, hxne, rel, hrel, hrm⟩
          subst hox
          refine ⟨o, ho, ?_, rfl⟩
          simp only [Bool.and_eq_true, decide_eq_true_eq, List.any_eq_true,
            beq_iff_eq]
          exact ⟨hxne, rel, hrel, hrm⟩
      · dsimp only
        rw [Bool.not_eq_true', List.isEmpty_eq_false_iff_exists_mem]
        constructor
        · rintro ⟨y, hy⟩
          obtain ⟨hyrel, hq⟩ := List.mem_filter.mp hy
          obtain ⟨muy, hmy⟩ := hentry y (hrelated m.name y hyrel)
          exact ⟨y, hyrel, (hsafe y muy hmy).mp hq⟩
        · rintro ⟨y, hyrel, hs⟩
          obtain ⟨muy, hmy⟩ := hentry y (hrelated m.name y hyrel)
          exact ⟨y, List.mem_filter.mpr ⟨hyrel, (hsafe y muy hmy).mpr hs⟩⟩
    · rw [if_neg hc] at hsome
      cases hsome

/-- Witness for C6 on the Order / OrderItem example of the spec: Order
(DEFINITELY_UNUSED) is referenced by OrderItem (SAFE), so the auditor
reports Order with referencing list [OrderItem] and danger set. -/
theorem c6_witness :
    (usageOrder.map Prod.fst = modelsOrder.map Model.name) ∧
    ((modelsOrder.map Model.name).Nodup) ∧
    ((⟨na "Order", [na "OrderItem"], true⟩ : RelReport) ∈
      analyzeRelationships modelsOrder usageOrder) ∧
    ((⟨na "Order", [na "OrderItem"], true⟩ : RelReport).danger = true ↔
      ∃ x ∈ (⟨na "Order", [na "OrderItem"], true⟩ : RelReport).referencedBy,
        riskOf usageOrder x = "SAFE" ∨ riskOf usageOrder x = "PROBABLY_SAFE") :=
  ⟨by decide, by decide, by decide,
    ((c6_relationship_audit modelsOrder usageOrder (by decide) (by decide)
        (by decide)).2 ⟨na "Order", [na "OrderItem"], true⟩ (by decide)).2.2⟩

/-- Witness for C9: the server text `: Widget ,` has exactly one
BUSINESS_LOGIC match (a type-annotation pattern), which records the signal
but leaves the real-usage flag false. -/
theorem c9_witness :
    ((strictUA (na "Widget") (na "f") false (na ": Widget ,")).usages.any
        (fun e => e.utype == "BUSINESS_LOGIC") = true) ∧
    (strictUA (na "Widget") (na "f") false (na ": Widget ,")).isRealUsage = false :=
  ⟨by decide,
    (c9_strict_business_logic_gate (na "Widget") (na "f") false
        (na ": Widget ,")).2.2 (by decide) (by decide) (by decide) (by decide)⟩

end PrismaCheck
